import Mathlib

/-!
Verification development for the core of the perceptia tiling compositor.

The definitions below are a shallow embedding of the Rust sources:

* `qualia/coordinator.rs` — the `InnerCoordinator` registry and its operations;
* `frames/packing.rs` — `homogenize`, `set_size`, `set_position`, `move_with_contents`;
* `frames/searching.rs` — `find_buildable`, `find_top`;
* `exhibitor/compositor.rs` — `Compositor::manage_surface`, `choose_target`.

The `Surface` record, the `show_reason` bitflags, the `Frame` node structure and the
settling code are not among the provided sources (only their callers are); those parts
are modelled from the specification and marked as such in their doc comments.

Machine integers are modelled as `Nat`/`Int`; the surface-id counter uses an explicit
`% 2 ^ 64` because the source computes `as_number() as u64 + 1` on a `u64`.
Emission through the signaler is modelled by appending the emitted perceptron to an
event list carried in the coordinator state, in emission order.
-/

set_option autoImplicit false

namespace Perceptia

/-- Integer 2D vector, the embedding of `defs::Position` and `defs::Vector`. -/
structure Vector where
  x : Int
  y : Int
  deriving DecidableEq, Repr

instance : Add Vector := ⟨fun a b => ⟨a.x + b.x, a.y + b.y⟩⟩

instance : Sub Vector := ⟨fun a b => ⟨a.x - b.x, a.y - b.y⟩⟩

/-- Size in pixels, the embedding of `defs::Size` (`width`/`height` are `usize`). -/
structure Size where
  width : Nat
  height : Nat
  deriving DecidableEq, Repr

/-- Modelled from the spec: the `show_reason` bitflags of the absent `qualia/surface.rs`.
Canonical bits are `DRAWABLE` (a buffer has been committed) and `IN_SHELL` (a shell role
has been assigned); the surface is `READY` iff all required bits are set. -/
structure ShowReason where
  drawable : Bool
  inShell : Bool
  deriving DecidableEq, Repr

namespace show_reason

def UNINITIALIZED : ShowReason := ⟨false, false⟩

def DRAWABLE : ShowReason := ⟨true, false⟩

def IN_SHELL : ShowReason := ⟨false, true⟩

def READY : ShowReason := ⟨true, true⟩

end show_reason

/-- Bitwise union of show reasons (insertion of flags). -/
def ShowReason.insert (a b : ShowReason) : ShowReason :=
  ⟨a.drawable || b.drawable, a.inShell || b.inShell⟩

/-- Bitwise difference of show reasons (removal of flags). -/
def ShowReason.remove (a b : ShowReason) : ShowReason :=
  ⟨a.drawable && !b.drawable, a.inShell && !b.inShell⟩

/-- Modelled from the spec: the `surface_state` flags (`MAXIMIZED`, `FULLSCREEN`,
`RESIZING`, `TILED`, `ACTIVATED`) are independent bits; their numeric values are not in
the provided sources, so they are assigned distinct bit positions here. -/
def surface_state.MAXIMIZED : Nat := 1

/-- Render record returned for one surface: its id and position, per the renderer
interface section of the spec. -/
structure SurfaceContext where
  id : Nat
  pos : Vector
  deriving DecidableEq, Repr

/-- Modelled from the spec: the `Surface` record of the absent `qualia/surface.rs` —
identifier, desired size, requested size, offset, relative position, parent identifier
(possibly invalid, i.e. zero), ordered satellite list (includes self by convention),
show-reason bitmask and state-flags bitmask.  Pending and committed buffers are not
needed by any operation embedded here. -/
structure Surface where
  id : Nat
  offset : Vector
  requestedSize : Size
  desiredSize : Size
  relativePosition : Vector
  parentSid : Nat
  satellites : List Nat
  showReason : ShowReason
  stateFlags : Nat
  deriving DecidableEq, Repr

/-- Modelled from the spec: a fresh blank surface record; the satellite list includes
self by convention in render traversal. -/
def Surface.new (sid : Nat) : Surface :=
  { id := sid
    offset := ⟨0, 0⟩
    requestedSize := ⟨0, 0⟩
    desiredSize := ⟨0, 0⟩
    relativePosition := ⟨0, 0⟩
    parentSid := 0
    satellites := [sid]
    showReason := show_reason.UNINITIALIZED
    stateFlags := 0 }

def Surface.get_show_reason (s : Surface) : ShowReason := s.showReason

/-- Modelled from the spec: `Surface::show` adds the given flag and returns the
resulting mask. -/
def Surface.show (s : Surface) (r : ShowReason) : Surface × ShowReason :=
  let m := s.showReason.insert r
  ({ s with showReason := m }, m)

/-- Modelled from the spec: `Surface::hide` removes the given flag and returns the
resulting mask. -/
def Surface.hide (s : Surface) (r : ShowReason) : Surface × ShowReason :=
  let m := s.showReason.remove r
  ({ s with showReason := m }, m)

def Surface.set_parent_sid (s : Surface) (psid : Nat) : Surface :=
  { s with parentSid := psid }

def Surface.set_relative_position (s : Surface) (p : Vector) : Surface :=
  { s with relativePosition := p }

def Surface.add_satellite (s : Surface) (sid : Nat) : Surface :=
  { s with satellites := s.satellites ++ [sid] }

def Surface.get_satellites (s : Surface) : List Nat := s.satellites

/-- Modelled from the spec: the per-surface render record `{sid, position}`. -/
def Surface.get_renderer_context (s : Surface) : SurfaceContext :=
  ⟨s.id, s.relativePosition⟩

/-- Information about a surface as returned by `get_surface`; the compositor only
consults `parent_sid`, the sizes and the show reason. -/
structure SurfaceInfo where
  id : Nat
  parent_sid : Nat
  desiredSize : Size
  showReason : ShowReason
  deriving DecidableEq, Repr

def Surface.get_info (s : Surface) : SurfaceInfo :=
  ⟨s.id, s.parentSid, s.desiredSize, s.showReason⟩

/-- The perceptron variants emitted by the embedded coordinator operations. -/
inductive Perceptron where
  | notify
  | surfaceReady (sid : Nat)
  | surfaceDestroyed (sid : Nat)
  | surfaceReconfigured (sid : Nat)
  | keyboardFocusChanged (old_sid new_sid : Nat)
  | pointerFocusChanged (old_sid new_sid : Nat) (pos : Vector)
  | cursorSurfaceChange (sid : Nat)
  deriving DecidableEq, Repr

/-- Association-list lookup, the embedding of `HashMap::get`. -/
def mapLookup {α : Type} : List (Nat × α) → Nat → Option α
  | [], _ => none
  | (k, v) :: rest, key => if k = key then some v else mapLookup rest key

/-- Association-list insertion, the embedding of `HashMap::insert` (replace the entry
if the key is present, add it otherwise). -/
def mapInsert {α : Type} : List (Nat × α) → Nat → α → List (Nat × α)
  | [], key, v => [(key, v)]
  | (k, w) :: rest, key, v =>
    if k = key then (key, v) :: rest else (k, w) :: mapInsert rest key v

/-- Memory pools as registered by the coordinator; the backing storage types
(`MappedMemory`, `Buffer` from the absent `qualia/memory.rs`) carry no information
relevant to the embedded operations. -/
inductive MemoryPool where
  | fromMemory
  | fromBuffer
  deriving DecidableEq, Repr

/-- Modelled from the spec: a memory view is an immutable descriptor over the backing
storage of a pool: pool id, offset, width, height, stride. -/
structure MemoryView where
  pool : Nat
  offset : Nat
  width : Nat
  height : Nat
  stride : Nat
  deriving DecidableEq, Repr

/-- The embedding of `InnerCoordinator`: surface, view and pool registries, the id
counters, both focus ids, and the sequence of perceptrons emitted so far through the
signaler (in emission order). -/
structure InnerCoordinator where
  surfaces : List (Nat × Surface)
  memory_views : List (Nat × MemoryView)
  memory_pools : List (Nat × MemoryPool)
  last_surface_id : Nat
  last_memory_view_id : Nat
  last_memory_pool_id : Nat
  kfsid : Nat
  pfsid : Nat
  events : List Perceptron
  deriving DecidableEq, Repr

namespace InnerCoordinator

/-- The embedding of `InnerCoordinator::new`: empty registries, counters at their
initial values, both focuses invalid, nothing emitted yet. -/
def new : InnerCoordinator :=
  { surfaces := []
    memory_views := []
    memory_pools := []
    last_surface_id := 0
    last_memory_view_id := 0
    last_memory_pool_id := 0
    kfsid := 0
    pfsid := 0
    events := [] }

/-- Emission through the signaler: the perceptron is appended to the event sequence. -/
def emit (c : InnerCoordinator) (p : Perceptron) : InnerCoordinator :=
  { c with events := c.events ++ [p] }

/-- `InnerCoordinator::notify`. -/
def notify (c : InnerCoordinator) : InnerCoordinator :=
  c.emit .notify

/-- `InnerCoordinator::get_surface`. -/
def get_surface (c : InnerCoordinator) (sid : Nat) : Option SurfaceInfo :=
  (mapLookup c.surfaces sid).map Surface.get_info

/-- `InnerCoordinator::set_keyboard_focus`: if the focus changes, emit
`KeyboardFocusChanged(old, new)` and then store the new focus. -/
def set_keyboard_focus (c : InnerCoordinator) (sid : Nat) : InnerCoordinator :=
  if c.kfsid ≠ sid then
    let c := c.emit (.keyboardFocusChanged c.kfsid sid)
    { c with kfsid := sid }
  else
    c

/-- `InnerCoordinator::generate_next_surface_id`: the counter is a `u64` incremented by
one, hence the reduction modulo `2 ^ 64`. -/
def generate_next_surface_id (c : InnerCoordinator) : InnerCoordinator × Nat :=
  let n := (c.last_surface_id + 1) % 2 ^ 64
  ({ c with last_surface_id := n }, n)

/-- `InnerCoordinator::create_surface`: generate a fresh id, insert a blank record,
return the id. -/
def create_surface (c : InnerCoordinator) : InnerCoordinator × Nat :=
  let (c, id) := c.generate_next_surface_id
  ({ c with surfaces := mapInsert c.surfaces id (Surface.new id) }, id)

/-- `InnerCoordinator::generate_next_memory_pool_id`.  Modelled from the spec:
`MemoryPoolId` is an incrementable opaque type (`increment` stores and returns the
incremented value). -/
def generate_next_memory_pool_id (c : InnerCoordinator) : InnerCoordinator × Nat :=
  let n := c.last_memory_pool_id + 1
  ({ c with last_memory_pool_id := n }, n)

/-- `InnerCoordinator::generate_next_memory_view_id`.  Modelled from the spec:
`MemoryViewId` is an incrementable opaque type (`increment` stores and returns the
incremented value). -/
def generate_next_memory_view_id (c : InnerCoordinator) : InnerCoordinator × Nat :=
  let n := c.last_memory_view_id + 1
  ({ c with last_memory_view_id := n }, n)

/-- `InnerCoordinator::create_pool_from_memory`. -/
def create_pool_from_memory (c : InnerCoordinator) : InnerCoordinator × Nat :=
  let (c, mpid) := c.generate_next_memory_pool_id
  ({ c with memory_pools := mapInsert c.memory_pools mpid .fromMemory }, mpid)

/-- `InnerCoordinator::create_memory_view`: the fresh view id is generated before the
pool is looked up; when the pool is missing the call logs an error and returns `none`
with the counter already advanced. -/
def create_memory_view (c : InnerCoordinator) (mpid offset width height stride : Nat) :
    InnerCoordinator × Option Nat :=
  let (c, id) := c.generate_next_memory_view_id
  match mapLookup c.memory_pools mpid with
  | some _ =>
    ({ c with memory_views := mapInsert c.memory_views id ⟨mpid, offset, width, height, stride⟩ },
     some id)
  | none => (c, none)

/-- `InnerCoordinator::show_surface`: add the flag; if the mask became `READY` and was
not `READY` before, emit `SurfaceReady`.  An unknown sid warns and returns. -/
def show_surface (c : InnerCoordinator) (sid : Nat) (reason : ShowReason) : InnerCoordinator :=
  match mapLookup c.surfaces sid with
  | none => c
  | some surface =>
    let old_reason := surface.get_show_reason
    let (surface, new_reason) := surface.show reason
    let c := { c with surfaces := mapInsert c.surfaces sid surface }
    if new_reason = show_reason.READY ∧ old_reason ≠ show_reason.READY then
      c.emit (.surfaceReady sid)
    else
      c

/-- `InnerCoordinator::hide_surface`: remove the flag; if the mask stopped being
`READY` and was `READY` before, emit `SurfaceDestroyed`. -/
def hide_surface (c : InnerCoordinator) (sid : Nat) (reason : ShowReason) : InnerCoordinator :=
  match mapLookup c.surfaces sid with
  | none => c
  | some surface =>
    let old_reason := surface.get_show_reason
    let (surface, new_reason) := surface.hide reason
    let c := { c with surfaces := mapInsert c.surfaces sid surface }
    if new_reason ≠ show_reason.READY ∧ old_reason = show_reason.READY then
      c.emit (.surfaceDestroyed sid)
    else
      c

/-- `InnerCoordinator::relate_surfaces`: set the parent id, clear the relative
position, clear `IN_SHELL` directly on the surface record (not via `hide_surface`, so
nothing is emitted), then add the satellite entry to the parent.  Either lookup failure
warns and returns, leaving the mutations already made in place. -/
def relate_surfaces (c : InnerCoordinator) (sid parent_sid : Nat) : InnerCoordinator :=
  match mapLookup c.surfaces sid with
  | none => c
  | some surface =>
    let surface := surface.set_parent_sid parent_sid
    let surface := surface.set_relative_position ⟨0, 0⟩
    let surface := (surface.hide show_reason.IN_SHELL).1
    let c := { c with surfaces := mapInsert c.surfaces sid surface }
    match mapLookup c.surfaces parent_sid with
    | none => c
    | some parent_surface =>
      { c with surfaces := mapInsert c.surfaces parent_sid (parent_surface.add_satellite sid) }

/-- `InnerCoordinator::reconfigure`: if the desired size or the state flags changed,
update both and emit `SurfaceReconfigured`. -/
def reconfigure (c : InnerCoordinator) (sid : Nat) (size : Size) (state_flags : Nat) :
    InnerCoordinator :=
  match mapLookup c.surfaces sid with
  | none => c
  | some surface =>
    if surface.desiredSize ≠ size ∨ surface.stateFlags ≠ state_flags then
      let surface := { surface with desiredSize := size, stateFlags := state_flags }
      ({ c with surfaces := mapInsert c.surfaces sid surface }).emit (.surfaceReconfigured sid)
    else
      c

end InnerCoordinator

mutual

/-- `InnerCoordinator::get_renderer_context`, made total with a fuel argument because
the source recursion over the satellite graph has no visited set or depth guard.  The
outer `Option` is the fuel: `none` means the fuel ran out, i.e. the source recursion
would still be running; `some r` means the source returns `r` (itself an `Option`, the
source returning `None` for an unregistered sid). -/
def get_renderer_context_fueled :
    Nat → InnerCoordinator → Nat → Option (Option (List SurfaceContext))
  | 0, _, _ => none
  | fuel + 1, c, sid =>
    match mapLookup c.surfaces sid with
    | none => some none
    | some surface =>
      (renderer_context_satellites fuel c sid surface surface.get_satellites).map some

/-- The loop of `get_renderer_context` over the satellite list: a satellite equal to
the surface itself contributes the own render context; any other satellite is recursed
into, a `None` child result being skipped (`if let Some(...)`). -/
def renderer_context_satellites :
    Nat → InnerCoordinator → Nat → Surface → List Nat → Option (List SurfaceContext)
  | _, _, _, _, [] => some []
  | fuel, c, sid, surface, child :: rest =>
    if child = sid then
      (renderer_context_satellites fuel c sid surface rest).map
        (surface.get_renderer_context :: ·)
    else
      match get_renderer_context_fueled fuel c child with
      | none => none
      | some none => renderer_context_satellites fuel c sid surface rest
      | some (some arr) =>
        (renderer_context_satellites fuel c sid surface rest).map (arr ++ ·)

end

/-- The arrangement a directed frame imposes on its children (`frame::Geometry`). -/
inductive Geometry where
  | floating
  | horizontal
  | stacked
  | vertical
  deriving DecidableEq, Repr

/-- Modelled from the spec: the layout-relevant view of a `frame::Frame` node from the
absent `frames/frame.rs` — bound surface id (invalid, i.e. zero, for non-leaves),
geometry, area (position plus size) and the spatial children in layout order.  The
packing algorithms of `frames/packing.rs` traverse exactly this structure through
`get_sid`, `get_geometry`, `get_position`, `get_size`, `space_iter`,
`set_plumbing_position` and `set_plumbing_size`. -/
inductive Frame where
  | node (sid : Nat) (geometry : Geometry) (pos : Vector) (size : Size)
      (children : List Frame)

def Frame.get_sid : Frame → Nat
  | .node sid _ _ _ _ => sid

def Frame.get_geometry : Frame → Geometry
  | .node _ g _ _ _ => g

def Frame.get_position : Frame → Vector
  | .node _ _ pos _ _ => pos

def Frame.get_size : Frame → Size
  | .node _ _ _ size _ => size

def Frame.children : Frame → List Frame
  | .node _ _ _ _ cs => cs

/-- `Frame::count_children`. -/
def Frame.count_children (f : Frame) : Nat := f.children.length

/-- The position and size of each direct child, in spatial order. -/
def Frame.childAreas (f : Frame) : List (Vector × Size) :=
  f.children.map fun c => (c.get_position, c.get_size)

mutual

/-- Structural measure of a frame tree, for termination of the packing recursion. -/
def Frame.measure : Frame → Nat
  | .node _ _ _ _ cs => 1 + measureList cs

def measureList : List Frame → Nat
  | [] => 0
  | c :: cs => Frame.measure c + measureList cs

end

mutual

/-- `Packing::move_with_contents`: shift the own position by the vector, then recurse
into every spatial child. -/
def move_with_contents : Frame → Vector → Frame
  | .node sid g pos size cs, v => .node sid g (pos + v) size (move_list cs v)

def move_list : List Frame → Vector → List Frame
  | [], _ => []
  | c :: cs, v => move_with_contents c v :: move_list cs v

end

/-- `Packing::set_position`: compute the delta and move with contents. -/
def set_position (f : Frame) (pos : Vector) : Frame :=
  move_with_contents f (pos - f.get_position)

mutual

/-- `Packing::set_size`: record the new size, reconfigure the bound surface with the
`MAXIMIZED` state through the coordinator, then update the children: under a directed
geometry whose own extent is unchanged only the orthogonal dimension is propagated,
otherwise the frame is relaxed (which homogenizes); under any other geometry every
child receives the full new size. -/
def set_size : Frame → Size → InnerCoordinator → Frame × InnerCoordinator
  | .node sid geometry pos old_size children, size, sa =>
    let sa := sa.reconfigure sid size surface_state.MAXIMIZED
    match geometry with
    | .horizontal =>
      if old_size.width = size.width then
        let (cs, sa) := set_size_heights children size.height sa
        (.node sid geometry pos size cs, sa)
      else
        homogenize (.node sid geometry pos size children) sa
    | .vertical =>
      if old_size.height = size.height then
        let (cs, sa) := set_size_widths children size.width sa
        (.node sid geometry pos size cs, sa)
      else
        homogenize (.node sid geometry pos size children) sa
    | _ =>
      let (cs, sa) := set_size_all children size sa
      (.node sid geometry pos size cs, sa)
termination_by f _ _ => 3 * f.measure + 2
decreasing_by all_goals (simp [Frame.measure, measureList]; try omega)

/-- The child loop of `set_size` for a `Horizontal` frame with unchanged width: each
child keeps its width and receives the new height. -/
def set_size_heights : List Frame → Nat → InnerCoordinator → List Frame × InnerCoordinator
  | [], _, sa => ([], sa)
  | c :: cs, h, sa =>
    let (c, sa) := set_size c ⟨c.get_size.width, h⟩ sa
    let (cs, sa) := set_size_heights cs h sa
    (c :: cs, sa)
termination_by cs _ _ => 3 * measureList cs + 3
decreasing_by all_goals (simp [Frame.measure, measureList]; try (have hc : 1 ≤ c.measure := by cases c; simp [Frame.measure]); try omega)

/-- The child loop of `set_size` for a `Vertical` frame with unchanged height: each
child keeps its height and receives the new width. -/
def set_size_widths : List Frame → Nat → InnerCoordinator → List Frame × InnerCoordinator
  | [], _, sa => ([], sa)
  | c :: cs, w, sa =>
    let (c, sa) := set_size c ⟨w, c.get_size.height⟩ sa
    let (cs, sa) := set_size_widths cs w sa
    (c :: cs, sa)
termination_by cs _ _ => 3 * measureList cs + 3
decreasing_by all_goals (simp [Frame.measure, measureList]; try (have hc : 1 ≤ c.measure := by cases c; simp [Frame.measure]); try omega)

/-- The child loop of `set_size` for `Stacked` and `Floating` frames: each child
receives the full new size. -/
def set_size_all : List Frame → Size → InnerCoordinator → List Frame × InnerCoordinator
  | [], _, sa => ([], sa)
  | c :: cs, size, sa =>
    let (c, sa) := set_size c size sa
    let (cs, sa) := set_size_all cs size sa
    (c :: cs, sa)
termination_by cs _ _ => 3 * measureList cs + 3
decreasing_by all_goals (simp [Frame.measure, measureList]; try (have hc : 1 ≤ c.measure := by cases c; simp [Frame.measure]); try omega)

/-- `Packing::homogenize` (and `Packing::relax`, which currently just homogenizes):
on a frame with no children or a `Floating` frame this is a no-op; otherwise the child
size and the position increment are decided by the geometry (`Stacked` keeps the full
size with no stride; `Vertical` divides the height by the child count and strides in y;
`Horizontal` dually in x) and the children are resized and repositioned in spatial
order. -/
def homogenize : Frame → InnerCoordinator → Frame × InnerCoordinator
  | .node sid geometry pos size children, sa =>
    if children.length < 1 then (.node sid geometry pos size children, sa)
    else
      match geometry with
      | .stacked =>
        let (cs, sa) := homogenize_children children size pos ⟨0, 0⟩ sa
        (.node sid geometry pos size cs, sa)
      | .vertical =>
        let csize : Size := ⟨size.width, size.height / children.length⟩
        let (cs, sa) :=
          homogenize_children children csize pos ⟨0, (csize.height : Int)⟩ sa
        (.node sid geometry pos size cs, sa)
      | .horizontal =>
        let csize : Size := ⟨size.width / children.length, size.height⟩
        let (cs, sa) :=
          homogenize_children children csize pos ⟨(csize.width : Int), 0⟩ sa
        (.node sid geometry pos size cs, sa)
      | .floating => (.node sid geometry pos size children, sa)
termination_by f _ => 3 * f.measure + 1
decreasing_by all_goals (simp [Frame.measure, measureList]; try omega)

/-- The child loop of `homogenize`: each child is resized, then moved to the running
position, which advances by the increment. -/
def homogenize_children :
    List Frame → Size → Vector → Vector → InnerCoordinator → List Frame × InnerCoordinator
  | [], _, _, _, sa => ([], sa)
  | c :: cs, csize, pos, inc, sa =>
    let (c, sa) := set_size c csize sa
    let c := set_position c pos
    let (cs, sa) := homogenize_children cs csize (pos + inc) inc sa
    (c :: cs, sa)
termination_by cs _ _ _ _ => 3 * measureList cs + 3
decreasing_by all_goals (simp [Frame.measure, measureList]; try (have hc : 1 ≤ c.measure := by cases c; simp [Frame.measure]); try omega)

end

/-- `Packing::relax`: currently equivalent to homogenizing (source TODO). -/
def relax (f : Frame) (sa : InnerCoordinator) : Frame × InnerCoordinator :=
  homogenize f sa

/-- The role of a frame in the hierarchy (`frame::Mode`). -/
inductive Mode where
  | root
  | display
  | workspace
  | container
  | leaf
  deriving DecidableEq, Repr

/-- Modelled from the spec: a frame is a "top" frame when its mode is Display or
Workspace (`find_top` ascends until such an ancestor). -/
def Mode.is_top : Mode → Bool
  | .display => true
  | .workspace => true
  | _ => false

/-- Modelled from the spec: the linked view of a `frame::Frame` node used by the
searching code and the compositor — bound surface id, geometry, mode, area, the parent
link and the child links in spatial and temporal order.  Following the design notes of
the spec, handles are indices into an arena of nodes. -/
structure FrameRec where
  sid : Nat
  geometry : Geometry
  mode : Mode
  pos : Vector
  size : Size
  parent : Option Nat
  spatial : List Nat
  temporal : List Nat
  deriving DecidableEq, Repr

/-- Arena of frame nodes with a fresh-handle counter. -/
structure FrameArena where
  nodes : List (Nat × FrameRec)
  next_id : Nat
  deriving DecidableEq, Repr

/-- `Searching::find_buildable`: a frame carrying a valid surface id returns its
parent, any other frame returns itself.  The outer `Option` reflects the arena lookup
of the handle; the inner one is the `Option<Frame>` of the source. -/
def find_buildable (a : FrameArena) (f : Nat) : Option (Option Nat) :=
  (mapLookup a.nodes f).map fun n => if n.sid ≠ 0 then n.parent else some f

/-- `Searching::find_top`, made total with a fuel argument: ascend the parent chain
until a frame whose mode is top, returning `none` when there is no such ancestor.  For
a well-formed arena the parent chain is acyclic, so fuel exceeding the node count never
runs out. -/
def find_top_fueled : Nat → FrameArena → Nat → Option Nat
  | 0, _, _ => none
  | fuel + 1, a, f =>
    match mapLookup a.nodes f with
    | none => none
    | some n =>
      if n.mode.is_top then some f
      else
        match n.parent with
        | none => none
        | some p => find_top_fueled fuel a p

/-- `Searching::find_top` with enough fuel for any acyclic parent chain. -/
def find_top (a : FrameArena) (f : Nat) : Option Nat :=
  find_top_fueled (a.nodes.length + 1) a f

/-- `Frame::new_leaf`: allocate a leaf node bound to the surface id with the given
geometry. -/
def new_leaf (a : FrameArena) (sid : Nat) (g : Geometry) : FrameArena × Nat :=
  let id := a.next_id
  ({ nodes := mapInsert a.nodes id ⟨sid, g, .leaf, ⟨0, 0⟩, ⟨0, 0⟩, none, [], []⟩
     next_id := id + 1 }, id)

/-- `Frame::new_root`: per the spec the root frame has no parent, mode Root and
geometry Floating. -/
def new_root : FrameArena :=
  { nodes := [(0, ⟨0, .floating, .root, ⟨0, 0⟩, ⟨0, 0⟩, none, [], []⟩)], next_id := 1 }

mutual

/-- Modelled from the spec: relaxation of an arena frame after settling — redistribute
the areas of the children of a directed frame (full size for Stacked, an equal share of
the extent along the axis for Vertical and Horizontal, positions striding by that
share), reconfiguring each bound surface through the coordinator and recursing so that
grandchildren rehomogenize.  The recursion is fueled; any fuel at least the arena node
count suffices for a well-formed (acyclic) arena. -/
def arena_homogenize :
    Nat → FrameArena → Nat → InnerCoordinator → FrameArena × InnerCoordinator
  | 0, a, _, c => (a, c)
  | fuel + 1, a, f, c =>
    match mapLookup a.nodes f with
    | none => (a, c)
    | some n =>
      let len := n.spatial.length
      if len < 1 then (a, c)
      else
        match n.geometry with
        | .floating => (a, c)
        | .stacked => arena_homogenize_children fuel a n.spatial n.size n.pos ⟨0, 0⟩ c
        | .vertical =>
          let csize : Size := ⟨n.size.width, n.size.height / len⟩
          arena_homogenize_children fuel a n.spatial csize n.pos ⟨0, (csize.height : Int)⟩ c
        | .horizontal =>
          let csize : Size := ⟨n.size.width / len, n.size.height⟩
          arena_homogenize_children fuel a n.spatial csize n.pos ⟨(csize.width : Int), 0⟩ c

/-- The child loop of `arena_homogenize`: assign the decided size and the running
position to each child, reconfigure its bound surface, recurse into it. -/
def arena_homogenize_children :
    Nat → FrameArena → List Nat → Size → Vector → Vector → InnerCoordinator →
      FrameArena × InnerCoordinator
  | _, a, [], _, _, _, c => (a, c)
  | fuel, a, ch :: rest, csize, pos, inc, c =>
    let a :=
      match mapLookup a.nodes ch with
      | none => a
      | some n => { a with nodes := mapInsert a.nodes ch { n with pos := pos, size := csize } }
    let c :=
      match mapLookup a.nodes ch with
      | none => c
      | some n => c.reconfigure n.sid csize surface_state.MAXIMIZED
    let (a, c) := arena_homogenize fuel a ch c
    arena_homogenize_children fuel a rest csize (pos + inc) inc c

end

/-- Modelled from the spec: `Settling::settle` from the absent `frames/settling.rs` —
insert the frame at the end of the spatial order and the front of the temporal order of
the target, set the parent link, then relax the target, reconfiguring bound surfaces
through the coordinator. -/
def settle (a : FrameArena) (frame target : Nat) (c : InnerCoordinator) :
    FrameArena × InnerCoordinator :=
  match mapLookup a.nodes target, mapLookup a.nodes frame with
  | some tn, some fn =>
    let tn := { tn with spatial := tn.spatial ++ [frame], temporal := frame :: tn.temporal }
    let a := { a with nodes := mapInsert a.nodes target tn }
    let fn := { fn with parent := some target }
    let a := { a with nodes := mapInsert a.nodes frame fn }
    arena_homogenize (a.nodes.length + 1) a target c
  | _, _ => (a, c)

/-- Modelled from the spec: `SurfaceHistory::add` — remove any existing occurrence of
the id, then push it at the front (most recent first). -/
def history_add (h : List Nat) (sid : Nat) : List Nat :=
  sid :: h.filter (· ≠ sid)

/-- The strategic decision of `Compositor::choose_target`. -/
structure ManageDecision where
  target : Nat
  geometry : Geometry
  selection : Bool
  deriving DecidableEq, Repr

/-- The embedding of the `Compositor` state: surface history, frame arena with the
root handle, and the optional selected frame. -/
structure Compositor where
  history : List Nat
  arena : FrameArena
  root : Nat
  selection : Option Nat
  deriving DecidableEq, Repr

/-- `Compositor::new`: empty history, a fresh root frame, no selection. -/
def Compositor.new : Compositor :=
  { history := [], arena := new_root, root := 0, selection := none }

/-- `Compositor::choose_target`: `get_selection` clones `self.selection` and calls
`unwrap()` on it, and the chosen target search result is also unwrapped.  A `none`
result models the panic (unwinding) of one of those unwraps. -/
def choose_target (comp : Compositor) (surface : SurfaceInfo) : Option ManageDecision :=
  match comp.selection with
  | none => none
  | some sel =>
    if surface.parent_sid ≠ 0 then
      match find_buildable comp.arena sel with
      | some (some t) => some ⟨t, .stacked, true⟩
      | _ => none
    else
      match find_top comp.arena sel with
      | some t => some ⟨t, .vertical, true⟩
      | none => none

/-- `Compositor::manage_surface`: look the surface up (an unknown sid warns and
returns), consult `choose_target`, create a leaf frame, settle it under the target,
optionally select it, add the sid to the history and notify the coordinator.  The
result is `none` exactly when the call unwinds (panics inside `choose_target`). -/
def manage_surface (comp : Compositor) (c : InnerCoordinator) (sid : Nat) :
    Option (Compositor × InnerCoordinator) :=
  match c.get_surface sid with
  | none => some (comp, c)
  | some surface =>
    match choose_target comp surface with
    | none => none
    | some decision =>
      let (arena, frame) := new_leaf comp.arena sid decision.geometry
      let (arena, c) := settle arena frame decision.target c
      let comp := { comp with arena := arena }
      let comp :=
        if decision.selection then { comp with selection := some frame } else comp
      let comp := { comp with history := history_add comp.history sid }
      let c := c.notify
      some (comp, c)

/-- State reached after `n` successive `create_surface` calls. -/
def iterate_create : InnerCoordinator → Nat → InnerCoordinator
  | c, 0 => c
  | c, n + 1 => ((iterate_create c n).create_surface).1

/-- The id returned by `create_surface` call number `k + 1` in a sequence of calls
starting from `c`. -/
def created_id (c : InnerCoordinator) (k : Nat) : Nat :=
  ((iterate_create c k).create_surface).2

/-- Run a sequence of `create_memory_view` requests (one pool id per request),
collecting the returned view ids. -/
def run_create_views (c : InnerCoordinator) : List Nat → InnerCoordinator × List (Option Nat)
  | [] => (c, [])
  | mpid :: rest =>
    let r := c.create_memory_view mpid 0 0 0 0
    let rs := run_create_views r.1 rest
    (rs.1, r.2 :: rs.2)

/-- Membership of a point in the rectangular area with the given position and size. -/
def inArea (pos : Vector) (size : Size) (p : Vector) : Prop :=
  pos.x ≤ p.x ∧ p.x < pos.x + size.width ∧ pos.y ≤ p.y ∧ p.y < pos.y + size.height

instance (pos : Vector) (size : Size) (p : Vector) : Decidable (inArea pos size p) := by
  unfold inArea; infer_instance

mutual

/-- All nodes of a frame tree, the frame itself included, in pre-order. -/
def nodesOf : Frame → List Frame
  | .node sid g pos size cs => .node sid g pos size cs :: nodesOfList cs

def nodesOfList : List Frame → List Frame
  | [] => []
  | c :: cs => nodesOf c ++ nodesOfList cs

end

/-- The bound surface ids of all nodes of a frame tree. -/
def collectSids (f : Frame) : List Nat := (nodesOf f).map Frame.get_sid

/-- The bound surface ids of all nodes of a list of frame trees. -/
def collectSidsList (cs : List Frame) : List Nat := (nodesOfList cs).map Frame.get_sid

/-- The size relation `set_size` establishes between a parent and each child: under a
directed geometry whose extent is unchanged only the orthogonal dimension is forced,
otherwise the full size is. -/
def fits : Geometry → Size → Frame → Prop
  | .horizontal, size, c => c.get_size.height = size.height
  | .vertical, size, c => c.get_size.width = size.width
  | _, size, c => c.get_size = size

/-- A frame tree in which every parent-child pair satisfies `fits`; this is the shape
`set_size` leaves behind and the shape on which a repeated `set_size` is a no-op. -/
def shaped (f : Frame) : Prop :=
  ∀ u ∈ nodesOf f, ∀ c ∈ u.children, fits u.get_geometry u.get_size c

/-- The registry entry for the bound surface of a node agrees with the node: either
the sid is unregistered or the desired size is the node size with `MAXIMIZED` flags. -/
def headFits (sa : InnerCoordinator) (u : Frame) : Prop :=
  match mapLookup sa.surfaces u.get_sid with
  | none => True
  | some s => s.desiredSize = u.get_size ∧ s.stateFlags = surface_state.MAXIMIZED

/-- Every node of the tree agrees with the surface registry, so that re-running
`reconfigure` with the node sizes emits nothing. -/
def good (sa : InnerCoordinator) (f : Frame) : Prop :=
  ∀ u ∈ nodesOf f, headFits sa u

/-- The valid (nonzero) bound surface ids of a frame tree occur at most once; this is
the frame-tree invariant of the spec (a surface is bound to at most one leaf, and
non-leaves carry the invalid id). -/
def validNodup (f : Frame) : Prop := ((collectSids f).filter (· ≠ 0)).Nodup

/-- `validNodup` for a list of frame trees, the valid ids across all of them. -/
def validNodupList (cs : List Frame) : Prop :=
  ((collectSidsList cs).filter (· ≠ 0)).Nodup

/-- What one `set_size` call establishes: the sid skeleton is unchanged, only
registered sids of the tree are touched in the registry, absent keys stay absent, the
resulting tree is `shaped`, and (for trees with no duplicate valid sids, the invalid
sid unregistered) the resulting registry agrees with the resulting tree. -/
def establishes_set_size (f : Frame) (size : Size) (sa : InnerCoordinator) : Prop :=
  collectSids (set_size f size sa).1 = collectSids f ∧
  (∀ t, t ∉ collectSids f →
    mapLookup (set_size f size sa).2.surfaces t = mapLookup sa.surfaces t) ∧
  (∀ t, mapLookup sa.surfaces t = none →
    mapLookup (set_size f size sa).2.surfaces t = none) ∧
  shaped (set_size f size sa).1 ∧
  (validNodup f → mapLookup sa.surfaces 0 = none →
    good (set_size f size sa).2 (set_size f size sa).1)

/-- What the `set_size` child loop of a `Horizontal` frame establishes. -/
def establishes_heights (cs : List Frame) (h : Nat) (sa : InnerCoordinator) : Prop :=
  collectSidsList (set_size_heights cs h sa).1 = collectSidsList cs ∧
  (∀ t, t ∉ collectSidsList cs →
    mapLookup (set_size_heights cs h sa).2.surfaces t = mapLookup sa.surfaces t) ∧
  (∀ t, mapLookup sa.surfaces t = none →
    mapLookup (set_size_heights cs h sa).2.surfaces t = none) ∧
  (∀ c' ∈ (set_size_heights cs h sa).1, c'.get_size.height = h ∧ shaped c') ∧
  (validNodupList cs → mapLookup sa.surfaces 0 = none →
    ∀ c' ∈ (set_size_heights cs h sa).1, good (set_size_heights cs h sa).2 c')

/-- What the `set_size` child loop of a `Vertical` frame establishes. -/
def establishes_widths (cs : List Frame) (w : Nat) (sa : InnerCoordinator) : Prop :=
  collectSidsList (set_size_widths cs w sa).1 = collectSidsList cs ∧
  (∀ t, t ∉ collectSidsList cs →
    mapLookup (set_size_widths cs w sa).2.surfaces t = mapLookup sa.surfaces t) ∧
  (∀ t, mapLookup sa.surfaces t = none →
    mapLookup (set_size_widths cs w sa).2.surfaces t = none) ∧
  (∀ c' ∈ (set_size_widths cs w sa).1, c'.get_size.width = w ∧ shaped c') ∧
  (validNodupList cs → mapLookup sa.surfaces 0 = none →
    ∀ c' ∈ (set_size_widths cs w sa).1, good (set_size_widths cs w sa).2 c')

/-- What the `set_size` child loop of a `Stacked` or `Floating` frame establishes. -/
def establishes_all (cs : List Frame) (size : Size) (sa : InnerCoordinator) : Prop :=
  collectSidsList (set_size_all cs size sa).1 = collectSidsList cs ∧
  (∀ t, t ∉ collectSidsList cs →
    mapLookup (set_size_all cs size sa).2.surfaces t = mapLookup sa.surfaces t) ∧
  (∀ t, mapLookup sa.surfaces t = none →
    mapLookup (set_size_all cs size sa).2.surfaces t = none) ∧
  (∀ c' ∈ (set_size_all cs size sa).1, c'.get_size = size ∧ shaped c') ∧
  (validNodupList cs → mapLookup sa.surfaces 0 = none →
    ∀ c' ∈ (set_size_all cs size sa).1, good (set_size_all cs size sa).2 c')

/-- What `homogenize` establishes (it never reconfigures the parent itself, so the
registry facts concern the children sids only). -/
def establishes_homogenize (f : Frame) (sa : InnerCoordinator) : Prop :=
  collectSids (homogenize f sa).1 = collectSids f ∧
  (∀ t, t ∉ collectSidsList f.children →
    mapLookup (homogenize f sa).2.surfaces t = mapLookup sa.surfaces t) ∧
  (∀ t, mapLookup sa.surfaces t = none →
    mapLookup (homogenize f sa).2.surfaces t = none) ∧
  (f.get_geometry ≠ Geometry.floating → shaped (homogenize f sa).1) ∧
  (f.get_geometry ≠ Geometry.floating → validNodupList f.children →
    mapLookup sa.surfaces 0 = none →
    ∀ c' ∈ (homogenize f sa).1.children, good (homogenize f sa).2 c')

/-- What the `homogenize` child loop establishes. -/
def establishes_hchildren (cs : List Frame) (csize : Size) (pos inc : Vector)
    (sa : InnerCoordinator) : Prop :=
  collectSidsList (homogenize_children cs csize pos inc sa).1 = collectSidsList cs ∧
  (∀ t, t ∉ collectSidsList cs →
    mapLookup (homogenize_children cs csize pos inc sa).2.surfaces t =
      mapLookup sa.surfaces t) ∧
  (∀ t, mapLookup sa.surfaces t = none →
    mapLookup (homogenize_children cs csize pos inc sa).2.surfaces t = none) ∧
  (∀ c' ∈ (homogenize_children cs csize pos inc sa).1,
    c'.get_size = csize ∧ shaped c') ∧
  (validNodupList cs → mapLookup sa.surfaces 0 = none →
    ∀ c' ∈ (homogenize_children cs csize pos inc sa).1,
      good (homogenize_children cs csize pos inc sa).2 c')

/-- The conjunction of all establishment facts guarded by the termination measure of
the packing recursion; proven for every level by strong induction. -/
def establishes_below (N : Nat) : Prop :=
  (∀ (f : Frame) (size : Size) (sa : InnerCoordinator),
    3 * f.measure + 2 ≤ N → establishes_set_size f size sa) ∧
  (∀ (cs : List Frame) (h : Nat) (sa : InnerCoordinator),
    3 * measureList cs + 3 ≤ N → establishes_heights cs h sa) ∧
  (∀ (cs : List Frame) (w : Nat) (sa : InnerCoordinator),
    3 * measureList cs + 3 ≤ N → establishes_widths cs w sa) ∧
  (∀ (cs : List Frame) (size : Size) (sa : InnerCoordinator),
    3 * measureList cs + 3 ≤ N → establishes_all cs size sa) ∧
  (∀ (f : Frame) (sa : InnerCoordinator),
    3 * f.measure + 1 ≤ N → establishes_homogenize f sa) ∧
  (∀ (cs : List Frame) (csize : Size) (pos inc : Vector) (sa : InnerCoordinator),
    3 * measureList cs + 3 ≤ N → establishes_hchildren cs csize pos inc sa)

/-- The coordinator state in which two surfaces have been related into a satellite
cycle (1 is a satellite of 2 and 2 a satellite of 1), reached by two `create_surface`
calls followed by `relate_surfaces(2, 1)` and `relate_surfaces(1, 2)` — no operation
prevents this. -/
def cyclicSatState : InnerCoordinator :=
  ((((InnerCoordinator.new.create_surface).1.create_surface).1.relate_surfaces
      2 1).relate_surfaces 1 2)

/-! ## Theorems -/

@[simp] theorem Vector.add_def (a b : Vector) : a + b = ⟨a.x + b.x, a.y + b.y⟩ := rfl

@[simp] theorem Vector.sub_def (a b : Vector) : a - b = ⟨a.x - b.x, a.y - b.y⟩ := rfl

theorem Vector.add_sub_cancel (a b : Vector) : a + (b - a) = b := by
  cases a; cases b; simp

theorem Frame.measure_pos (f : Frame) : 1 ≤ f.measure := by
  cases f with
  | node sid g pos size cs => simp [Frame.measure]

@[simp] theorem mapLookup_nil {α : Type} (k : Nat) : mapLookup ([] : List (Nat × α)) k = none := rfl

theorem mapLookup_mapInsert {α : Type} (m : List (Nat × α)) (k k' : Nat) (v : α) :
    mapLookup (mapInsert m k v) k' = if k = k' then some v else mapLookup m k' := by
  induction m with
  | nil => simp [mapInsert, mapLookup]
  | cons hd tl ih =>
    obtain ⟨a, b⟩ := hd
    by_cases hak : a = k
    · subst hak
      by_cases hk : a = k' <;> simp [mapInsert, mapLookup, hk]
    · by_cases hk' : a = k'
      · subst hk'
        have : ¬ k = a := fun h => hak h.symm
        simp [mapInsert, mapLookup, hak, this]
      · simp [mapInsert, mapLookup, hak, hk', ih]

@[simp] theorem mapLookup_mapInsert_self {α : Type} (m : List (Nat × α)) (k : Nat) (v : α) :
    mapLookup (mapInsert m k v) k = some v := by
  simp [mapLookup_mapInsert]

theorem mapLookup_mapInsert_ne {α : Type} (m : List (Nat × α)) (k k' : Nat) (v : α)
    (h : k ≠ k') : mapLookup (mapInsert m k v) k' = mapLookup m k' := by
  simp [mapLookup_mapInsert, h]

/-- C4: `set_keyboard_focus(sid)` emits `KeyboardFocusChanged(old, sid)` and then
stores `sid` exactly when `sid` differs from the stored keyboard focus; a second call
with the same id is a complete no-op, so two calls in a row emit the event exactly once
(on the first call, when the focus actually changes) and the stored focus afterwards
equals `sid`. -/
theorem set_keyboard_focus_spec (c : InnerCoordinator) (sid : Nat) :
    (c.kfsid ≠ sid →
      c.set_keyboard_focus sid =
        { c with kfsid := sid,
                 events := c.events ++ [Perceptron.keyboardFocusChanged c.kfsid sid] }) ∧
    (c.kfsid = sid → c.set_keyboard_focus sid = c) ∧
    (c.set_keyboard_focus sid).kfsid = sid ∧
    (c.set_keyboard_focus sid).set_keyboard_focus sid = c.set_keyboard_focus sid ∧
    (c.kfsid ≠ sid →
      ((c.set_keyboard_focus sid).set_keyboard_focus sid).events =
        c.events ++ [Perceptron.keyboardFocusChanged c.kfsid sid]) := by
  by_cases h : c.kfsid = sid <;>
    simp [InnerCoordinator.set_keyboard_focus, InnerCoordinator.emit, h]

/-- Witness for C4: from the fresh coordinator, focusing surface 5 stores 5 and emits
the change from the invalid focus, and a repeated call changes nothing. -/
theorem set_keyboard_focus_witness :
    InnerCoordinator.new.set_keyboard_focus 5 =
      { InnerCoordinator.new with
          kfsid := 5, events := [Perceptron.keyboardFocusChanged 0 5] } ∧
    (InnerCoordinator.new.set_keyboard_focus 5).set_keyboard_focus 5 =
      InnerCoordinator.new.set_keyboard_focus 5 := by
  have h := set_keyboard_focus_spec InnerCoordinator.new 5
  exact ⟨by simpa using h.1 (by decide), h.2.2.2.1⟩

/-- C7: `find_buildable` returns the parent of a frame carrying a valid (nonzero)
bound surface id, i.e. of a leaf, and returns the frame itself when the bound surface
id is invalid, i.e. for a non-leaf. -/
theorem find_buildable_spec (a : FrameArena) (f : Nat) (n : FrameRec)
    (h : mapLookup a.nodes f = some n) :
    (n.sid ≠ 0 → find_buildable a f = some n.parent) ∧
    (n.sid = 0 → find_buildable a f = some (some f)) := by
  unfold find_buildable
  rw [h]
  constructor <;> intro hs <;> simp [hs]

/-- Witness for C7: in a two-node arena, the leaf (valid sid 7) yields its parent and
the non-leaf root (invalid sid) yields itself. -/
theorem find_buildable_witness :
    find_buildable
      ⟨[(0, ⟨0, .floating, .root, ⟨0, 0⟩, ⟨0, 0⟩, none, [1], [1]⟩),
        (1, ⟨7, .vertical, .leaf, ⟨0, 0⟩, ⟨0, 0⟩, some 0, [], []⟩)], 2⟩ 1 =
      some (some 0) ∧
    find_buildable
      ⟨[(0, ⟨0, .floating, .root, ⟨0, 0⟩, ⟨0, 0⟩, none, [1], [1]⟩),
        (1, ⟨7, .vertical, .leaf, ⟨0, 0⟩, ⟨0, 0⟩, some 0, [], []⟩)], 2⟩ 0 =
      some (some 0) := by
  constructor
  · have h := (find_buildable_spec
      ⟨[(0, ⟨0, .floating, .root, ⟨0, 0⟩, ⟨0, 0⟩, none, [1], [1]⟩),
        (1, ⟨7, .vertical, .leaf, ⟨0, 0⟩, ⟨0, 0⟩, some 0, [], []⟩)], 2⟩ 1
      ⟨7, .vertical, .leaf, ⟨0, 0⟩, ⟨0, 0⟩, some 0, [], []⟩ (by decide)).1 (by decide)
    simpa using h
  · have h := (find_buildable_spec
      ⟨[(0, ⟨0, .floating, .root, ⟨0, 0⟩, ⟨0, 0⟩, none, [1], [1]⟩),
        (1, ⟨7, .vertical, .leaf, ⟨0, 0⟩, ⟨0, 0⟩, some 0, [], []⟩)], 2⟩ 0
      ⟨0, .floating, .root, ⟨0, 0⟩, ⟨0, 0⟩, none, [1], [1]⟩ (by decide)).2 (by decide)
    simpa using h

/-- C9: when `sid` is registered but `parent_sid` is not, `relate_surfaces` returns
silently with the record of `sid` already mutated — parent id set, relative position
cleared, `IN_SHELL` cleared — while no satellite entry has been added to any surface
and nothing has been emitted. -/
theorem relate_surfaces_partial_mutation_spec (c : InnerCoordinator)
    (sid parent_sid : Nat) (s : Surface)
    (hs : mapLookup c.surfaces sid = some s)
    (hp : mapLookup c.surfaces parent_sid = none) :
    c.relate_surfaces sid parent_sid =
      { c with surfaces := mapInsert c.surfaces sid { s with
          parentSid := parent_sid,
          relativePosition := ⟨0, 0⟩,
          showReason := ⟨s.showReason.drawable, false⟩ } } ∧
    (c.relate_surfaces sid parent_sid).events = c.events ∧
    ((mapLookup (c.relate_surfaces sid parent_sid).surfaces sid).map Surface.satellites
      = some s.satellites) ∧
    (∀ t, t ≠ sid →
      (mapLookup (c.relate_surfaces sid parent_sid).surfaces t).map Surface.satellites
        = (mapLookup c.surfaces t).map Surface.satellites) := by
  have hne : sid ≠ parent_sid := by
    intro e; rw [← e, hs] at hp; exact Option.noConfusion hp
  have hmain : c.relate_surfaces sid parent_sid =
      { c with surfaces := mapInsert c.surfaces sid { s with
          parentSid := parent_sid,
          relativePosition := ⟨0, 0⟩,
          showReason := ⟨s.showReason.drawable, false⟩ } } := by
    unfold InnerCoordinator.relate_surfaces
    rw [hs]
    simp only [Surface.set_parent_sid, Surface.set_relative_position, Surface.hide,
      ShowReason.remove, show_reason.IN_SHELL]
    rw [mapLookup_mapInsert_ne _ _ _ _ hne, hp]
    simp
  refine ⟨hmain, by rw [hmain], ?_, ?_⟩
  · rw [hmain]
    simp
  · intro t ht
    rw [hmain]
    simp only
    rw [mapLookup_mapInsert_ne _ _ _ _ (fun e => ht e.symm)]

/-- Witness for C9: from a coordinator holding only surface 1, relating 1 to the
unregistered surface 9 mutates the record of 1 and adds no satellite. -/
theorem relate_surfaces_partial_mutation_witness :
    ((InnerCoordinator.new.create_surface).1.relate_surfaces 1 9).events = [] ∧
    ((mapLookup ((InnerCoordinator.new.create_surface).1.relate_surfaces 1 9).surfaces 1).map
      Surface.satellites = some [1]) := by
  have h := relate_surfaces_partial_mutation_spec (InnerCoordinator.new.create_surface).1
    1 9 (Surface.new 1) (by decide) (by decide)
  exact ⟨by simpa using h.2.1, by simpa using h.2.2.1⟩

/-- C3 counterexample: from the initial compositor state (no frame selected) with
surface 1 registered, `manage_surface(1)` unwinds — `get_selection` unwraps the `None`
selection and panics — contradicting the claim that it completes without unwinding in
every reachable state including the one with no selection. -/
theorem manage_surface_panic_counterexample :
    manage_surface Compositor.new (InnerCoordinator.new.create_surface).1 1 = none := rfl

/-- C3 amended: `manage_surface` completes without unwinding when the surface is
unregistered (warn and return) and when a frame is selected and the target search
succeeds; but when the surface is registered and no frame is selected it unwinds via
the unwrap inside `get_selection`. -/
theorem manage_surface_no_unwind_amended :
    (∀ (comp : Compositor) (c : InnerCoordinator) (sid : Nat),
      comp.selection = none → (c.get_surface sid).isSome →
        manage_surface comp c sid = none) ∧
    (∀ (comp : Compositor) (c : InnerCoordinator) (sid : Nat),
      c.get_surface sid = none → manage_surface comp c sid = some (comp, c)) ∧
    (∀ (comp : Compositor) (c : InnerCoordinator) (sid : Nat) (info : SurfaceInfo)
        (d : ManageDecision),
      c.get_surface sid = some info → choose_target comp info = some d →
        (manage_surface comp c sid).isSome) := by
  refine ⟨?_, ?_, ?_⟩
  · intro comp c sid hsel hsome
    rcases hinfo : c.get_surface sid with _ | info
    · rw [hinfo] at hsome; simp at hsome
    · unfold manage_surface
      rw [hinfo]
      simp [choose_target, hsel]
  · intro comp c sid hnone
    unfold manage_surface
    rw [hnone]
  · intro comp c sid info d hinfo hd
    unfold manage_surface
    rw [hinfo]
    simp [hd]

/-- Witness for C3 amended: with a selected workspace frame in the arena, managing the
registered parentless surface 1 completes (returns a state rather than unwinding). -/
theorem manage_surface_no_unwind_witness :
    (manage_surface
      { history := [], root := 0,
        arena := ⟨[(0, ⟨0, .vertical, .workspace, ⟨0, 0⟩, ⟨10, 10⟩, none, [], []⟩)], 1⟩,
        selection := some 0 }
      (InnerCoordinator.new.create_surface).1 1).isSome := by
  exact manage_surface_no_unwind_amended.2.2
    { history := [], root := 0,
      arena := ⟨[(0, ⟨0, .vertical, .workspace, ⟨0, 0⟩, ⟨10, 10⟩, none, [], []⟩)], 1⟩,
      selection := some 0 }
    (InnerCoordinator.new.create_surface).1 1 ((Surface.new 1).get_info)
    ⟨0, .vertical, true⟩ (by decide) (by decide)

/-- C1 counterexample: with surfaces 1 and 2 registered and surface 1 having both show
reasons set (`READY`), `relate_surfaces(1, 2)` clears `IN_SHELL` — the mask of surface
1 transitions away from `READY` — yet no `SURFACE_DESTROYED` (indeed no event at all)
is emitted, because `relate_surfaces` calls the `Surface::hide` method directly instead
of `hide_surface`.  This refutes the claim that the emission iff holds for every
operation changing show reasons, `relate_surfaces` included. -/
theorem relate_ready_counterexample :
    (let c := ((InnerCoordinator.new.create_surface).1.create_surface).1
     let c := c.show_surface 1 show_reason.DRAWABLE
     let c := c.show_surface 1 show_reason.IN_SHELL
     ((mapLookup c.surfaces 1).map Surface.get_show_reason = some show_reason.READY) ∧
     (let c2 := c.relate_surfaces 1 2
      ((mapLookup c2.surfaces 1).map Surface.get_show_reason = some show_reason.DRAWABLE) ∧
      show_reason.DRAWABLE ≠ show_reason.READY ∧
      c2.events = c.events ∧
      Perceptron.surfaceDestroyed 1 ∉ c2.events)) := by
  decide

/-- C1 amended: `show_surface` emits `SURFACE_READY` iff it makes the mask transition
to `READY`, and `hide_surface` emits `SURFACE_DESTROYED` iff it makes the mask
transition away from `READY` (both are no-ops on unknown sids); but `relate_surfaces`
clears the `IN_SHELL` bit without emitting any event, even when that makes the mask of
the surface leave `READY`. -/
theorem show_hide_relate_emission_amended :
    (∀ (c : InnerCoordinator) (sid : Nat) (r : ShowReason) (s : Surface),
      mapLookup c.surfaces sid = some s →
        (c.show_surface sid r).events =
          c.events ++
            (if s.showReason.insert r = show_reason.READY ∧ s.showReason ≠ show_reason.READY
             then [Perceptron.surfaceReady sid] else [])) ∧
    (∀ (c : InnerCoordinator) (sid : Nat) (r : ShowReason) (s : Surface),
      mapLookup c.surfaces sid = some s →
        (c.hide_surface sid r).events =
          c.events ++
            (if s.showReason.remove r ≠ show_reason.READY ∧ s.showReason = show_reason.READY
             then [Perceptron.surfaceDestroyed sid] else [])) ∧
    (∀ (c : InnerCoordinator) (sid : Nat) (r : ShowReason),
      mapLookup c.surfaces sid = none →
        c.show_surface sid r = c ∧ c.hide_surface sid r = c) ∧
    (∀ (c : InnerCoordinator) (sid parent_sid : Nat),
      (c.relate_surfaces sid parent_sid).events = c.events) ∧
    (∀ (c : InnerCoordinator) (sid parent_sid : Nat) (s : Surface),
      mapLookup c.surfaces sid = some s →
        (mapLookup (c.relate_surfaces sid parent_sid).surfaces sid).map Surface.get_show_reason
          = some (s.showReason.remove show_reason.IN_SHELL)) := by
  refine ⟨?_, ?_, ?_, ?_, ?_⟩
  · intro c sid r s hs
    unfold InnerCoordinator.show_surface
    rw [hs]
    simp only [Surface.show, Surface.get_show_reason, InnerCoordinator.emit]
    split <;> simp
  · intro c sid r s hs
    unfold InnerCoordinator.hide_surface
    rw [hs]
    simp only [Surface.hide, Surface.get_show_reason, InnerCoordinator.emit]
    split <;> simp
  · intro c sid r hs
    constructor
    · unfold InnerCoordinator.show_surface
      rw [hs]
    · unfold InnerCoordinator.hide_surface
      rw [hs]
  · intro c sid parent_sid
    unfold InnerCoordinator.relate_surfaces
    rcases h1 : mapLookup c.surfaces sid with _ | s
    · rfl
    · simp only
      split <;> rfl
  · intro c sid parent_sid s hs
    unfold InnerCoordinator.relate_surfaces
    rw [hs]
    simp only [Surface.set_parent_sid, Surface.set_relative_position, Surface.hide]
    rcases h2 : mapLookup (mapInsert c.surfaces sid { s with
        parentSid := parent_sid,
        relativePosition := ⟨0, 0⟩,
        showReason := s.showReason.remove show_reason.IN_SHELL }) parent_sid with _ | p
    · simp only [h2]
      simp [Surface.get_show_reason]
    · simp only [h2]
      by_cases hps : parent_sid = sid
      · subst hps
        rw [mapLookup_mapInsert_self] at h2
        cases h2
        simp [Surface.add_satellite, Surface.get_show_reason]
      · rw [mapLookup_mapInsert_ne _ _ _ _ hps]
        simp [Surface.get_show_reason]

/-- Witness for C1 amended: showing `DRAWABLE` on the fresh surface 1 (mask not yet
`READY`) emits nothing, and then showing `IN_SHELL` emits exactly one `SURFACE_READY`. -/
theorem show_hide_relate_emission_witness :
    ((InnerCoordinator.new.create_surface).1.show_surface 1 show_reason.DRAWABLE).events
      = [] ∧
    (((InnerCoordinator.new.create_surface).1.show_surface 1
        show_reason.DRAWABLE).show_surface 1 show_reason.IN_SHELL).events
      = [Perceptron.surfaceReady 1] := by
  constructor
  · have h := show_hide_relate_emission_amended.1 (InnerCoordinator.new.create_surface).1
      1 show_reason.DRAWABLE (Surface.new 1) (by decide)
    simpa using h
  · have h := show_hide_relate_emission_amended.1
      ((InnerCoordinator.new.create_surface).1.show_surface 1 show_reason.DRAWABLE)
      1 show_reason.IN_SHELL ((Surface.new 1).show show_reason.DRAWABLE).1 (by decide)
    simpa using h

theorem iterate_create_last (n : Nat) :
    (iterate_create InnerCoordinator.new n).last_surface_id = n % 2 ^ 64 := by
  induction n with
  | zero => rfl
  | succ n ih =>
    simp only [iterate_create, InnerCoordinator.create_surface,
      InnerCoordinator.generate_next_surface_id, ih]
    omega

theorem created_id_new (k : Nat) :
    created_id InnerCoordinator.new k = (k + 1) % 2 ^ 64 := by
  simp only [created_id, InnerCoordinator.create_surface,
    InnerCoordinator.generate_next_surface_id, iterate_create_last]
  omega

/-- C6 counterexample: the surface-id counter is a `u64` incremented modulo `2 ^ 64`,
so call number `2 ^ 64 + 1` returns the same id (1) as call number 1 — the claim that
no id is ever returned twice within a process lifetime fails once the counter wraps. -/
theorem create_surface_wrap_counterexample :
    created_id InnerCoordinator.new (2 ^ 64) = created_id InnerCoordinator.new 0 ∧
    created_id InnerCoordinator.new 0 = 1 := by
  rw [created_id_new, created_id_new]
  omega

/-- C6 amended: each `create_surface` call returns the previous counter plus one
reduced modulo `2 ^ 64`; within the first `2 ^ 64 - 1` calls the returned ids are
`k + 1`, strictly increasing, never the reserved invalid id zero, and never repeated;
only after the counter wraps can an id repeat. -/
theorem create_surface_monotonic_amended (j k : Nat) (hjk : j < k) (hk : k + 1 < 2 ^ 64) :
    created_id InnerCoordinator.new j = j + 1 ∧
    created_id InnerCoordinator.new k = k + 1 ∧
    created_id InnerCoordinator.new j < created_id InnerCoordinator.new k ∧
    created_id InnerCoordinator.new j ≠ 0 ∧
    (∀ c : InnerCoordinator,
      c.create_surface.2 = (c.last_surface_id + 1) % 2 ^ 64 ∧
      c.create_surface.1.last_surface_id = (c.last_surface_id + 1) % 2 ^ 64) := by
  refine ⟨?_, ?_, ?_, ?_, ?_⟩
  · rw [created_id_new]; omega
  · rw [created_id_new]; omega
  · rw [created_id_new, created_id_new]; omega
  · rw [created_id_new]; omega
  · intro c
    constructor <;>
      simp [InnerCoordinator.create_surface, InnerCoordinator.generate_next_surface_id]

/-- Witness for C6 amended: the first and second calls return 1 and 2. -/
theorem create_surface_monotonic_witness :
    created_id InnerCoordinator.new 0 = 1 ∧
    created_id InnerCoordinator.new 1 = 2 ∧
    created_id InnerCoordinator.new 0 < created_id InnerCoordinator.new 1 := by
  have h := create_surface_monotonic_amended 0 1 (by omega) (by norm_num)
  exact ⟨h.1, h.2.1, h.2.2.1⟩

theorem run_create_views_facts (reqs : List Nat) :
    ∀ c : InnerCoordinator,
      ((run_create_views c reqs).1.last_memory_view_id =
        c.last_memory_view_id + reqs.length) ∧
      (∀ x ∈ (run_create_views c reqs).2.filterMap id,
        c.last_memory_view_id < x ∧ x ≤ c.last_memory_view_id + reqs.length) ∧
      List.Chain' (· < ·) ((run_create_views c reqs).2.filterMap id) := by
  induction reqs with
  | nil => intro c; simp [run_create_views]
  | cons mpid rest ih =>
    intro c
    rcases hp : mapLookup c.memory_pools mpid with _ | p
    · have step : run_create_views c (mpid :: rest) =
          ((run_create_views { c with
              last_memory_view_id := c.last_memory_view_id + 1 } rest).1,
            none :: (run_create_views { c with
              last_memory_view_id := c.last_memory_view_id + 1 } rest).2) := by
        simp [run_create_views, InnerCoordinator.create_memory_view,
          InnerCoordinator.generate_next_memory_view_id, hp]
      obtain ⟨ih1, ih2, ih3⟩ := ih { c with last_memory_view_id := c.last_memory_view_id + 1 }
      simp only at ih1 ih2 ih3
      rw [step]
      simp only [List.filterMap_cons, id, List.length_cons]
      refine ⟨by omega, ?_, ih3⟩
      intro x hx
      have hb := ih2 x hx
      omega
    · have step : run_create_views c (mpid :: rest) =
          ((run_create_views { c with
              last_memory_view_id := c.last_memory_view_id + 1,
              memory_views := mapInsert c.memory_views (c.last_memory_view_id + 1)
                ⟨mpid, 0, 0, 0, 0⟩ } rest).1,
            some (c.last_memory_view_id + 1) :: (run_create_views { c with
              last_memory_view_id := c.last_memory_view_id + 1,
              memory_views := mapInsert c.memory_views (c.last_memory_view_id + 1)
                ⟨mpid, 0, 0, 0, 0⟩ } rest).2) := by
        simp [run_create_views, InnerCoordinator.create_memory_view,
          InnerCoordinator.generate_next_memory_view_id, hp]
      obtain ⟨ih1, ih2, ih3⟩ := ih { c with
        last_memory_view_id := c.last_memory_view_id + 1,
        memory_views := mapInsert c.memory_views (c.last_memory_view_id + 1)
          ⟨mpid, 0, 0, 0, 0⟩ }
      simp only at ih1 ih2 ih3
      rw [step]
      simp only [List.filterMap_cons, id, List.length_cons]
      refine ⟨by omega, ?_, ?_⟩
      · intro x hx
        rcases List.mem_cons.mp hx with hx | hx
        · subst hx; omega
        · have hb := ih2 x hx
          omega
      · refine List.chain'_cons'.mpr ⟨?_, ih3⟩
        intro b hb
        have hmem := List.mem_of_mem_head? hb
        have := ih2 b hmem
        omega

/-- C10: `create_memory_view` generates the fresh view id before checking the pool, so
every call — failing ones included — advances the id counter by one; a failing call
(missing pool) returns `none` with the counter consumed and no view inserted, a
successful call returns the new counter value and inserts the view; hence across any
request sequence the ids of successful calls are strictly increasing but, after a
failure, not contiguous. -/
theorem create_memory_view_id_consumption_spec (c : InnerCoordinator)
    (mpid offset width height stride : Nat) (reqs : List Nat) :
    ((c.create_memory_view mpid offset width height stride).1.last_memory_view_id =
      c.last_memory_view_id + 1) ∧
    (mapLookup c.memory_pools mpid = none →
      c.create_memory_view mpid offset width height stride =
        ({ c with last_memory_view_id := c.last_memory_view_id + 1 }, none)) ∧
    (∀ p, mapLookup c.memory_pools mpid = some p →
      c.create_memory_view mpid offset width height stride =
        ({ c with
            last_memory_view_id := c.last_memory_view_id + 1,
            memory_views := mapInsert c.memory_views (c.last_memory_view_id + 1)
              ⟨mpid, offset, width, height, stride⟩ },
         some (c.last_memory_view_id + 1))) ∧
    List.Chain' (· < ·) ((run_create_views c reqs).2.filterMap id) ∧
    ((run_create_views ((InnerCoordinator.new.create_pool_from_memory).1) [1, 2, 1]).2 =
      [some 1, none, some 3]) := by
  refine ⟨?_, ?_, ?_, (run_create_views_facts reqs c).2.2, by decide⟩
  · rcases hp : mapLookup c.memory_pools mpid with _ | p <;>
      simp [InnerCoordinator.create_memory_view,
        InnerCoordinator.generate_next_memory_view_id, hp]
  · intro hp
    simp [InnerCoordinator.create_memory_view,
      InnerCoordinator.generate_next_memory_view_id, hp]
  · intro p hp
    simp [InnerCoordinator.create_memory_view,
      InnerCoordinator.generate_next_memory_view_id, hp]

/-- Witness for C10: with only pool 1 present, a failing request for pool 2 consumes
an id, so the surrounding successful calls return 1 and 3. -/
theorem create_memory_view_id_consumption_witness :
    ((InnerCoordinator.new.create_pool_from_memory).1.create_memory_view 2 0 0 0 0).2
      = none ∧
    ((InnerCoordinator.new.create_pool_from_memory).1.create_memory_view
        2 0 0 0 0).1.last_memory_view_id = 1 := by
  have h := create_memory_view_id_consumption_spec
    (InnerCoordinator.new.create_pool_from_memory).1 2 0 0 0 0 []
  have h2 := h.2.1 (by decide)
  exact ⟨by rw [h2], by rw [h2]; decide⟩

theorem renderer_context_satellites_isSome (fuel : Nat) (c : InnerCoordinator)
    (sid : Nat) (surface : Surface) (l : List Nat)
    (h : ∀ child ∈ l, child ≠ sid → (get_renderer_context_fueled fuel c child).isSome) :
    (renderer_context_satellites fuel c sid surface l).isSome := by
  induction l with
  | nil => simp [renderer_context_satellites]
  | cons child rest ih =>
    have hrest : ∀ x ∈ rest, x ≠ sid → (get_renderer_context_fueled fuel c x).isSome :=
      fun x hx hne => h x (List.mem_cons_of_mem _ hx) hne
    by_cases hc : child = sid
    · subst hc
      simp only [renderer_context_satellites, eq_self_iff_true, if_true,
        Option.isSome_map']
      exact ih hrest
    · have hch := h child (List.mem_cons_self _ _) hc
      rcases hg : get_renderer_context_fueled fuel c child with _ | r
      · rw [hg] at hch; simp at hch
      · rcases r with _ | arr <;>
          simp only [renderer_context_satellites, if_neg hc, hg, Option.isSome_map'] <;>
          exact ih hrest

theorem gRC_terminates {c : InnerCoordinator} {r : Nat → Nat}
    (hr : ∀ s surf child, mapLookup c.surfaces s = some surf →
      child ∈ surf.satellites → child ≠ s → r child < r s) :
    ∀ fuel sid, r sid < fuel → (get_renderer_context_fueled fuel c sid).isSome := by
  intro fuel
  induction fuel with
  | zero => intro sid h; omega
  | succ fuel ih =>
    intro sid hsid
    rcases hs : mapLookup c.surfaces sid with _ | surf
    · simp [get_renderer_context_fueled, hs]
    · simp only [get_renderer_context_fueled, hs, Option.isSome_map']
      apply renderer_context_satellites_isSome
      intro child hchild hne
      exact ih child (by have := hr sid surf child hs hchild hne; omega)

theorem cyclic_diverges : ∀ fuel,
    get_renderer_context_fueled fuel cyclicSatState 1 = none ∧
    get_renderer_context_fueled fuel cyclicSatState 2 = none := by
  intro fuel
  induction fuel with
  | zero => constructor <;> simp [get_renderer_context_fueled]
  | succ fuel ih =>
    have h1 : mapLookup cyclicSatState.surfaces 1 =
        some { id := 1, offset := ⟨0, 0⟩, requestedSize := ⟨0, 0⟩, desiredSize := ⟨0, 0⟩,
               relativePosition := ⟨0, 0⟩, parentSid := 2, satellites := [1, 2],
               showReason := ⟨false, false⟩, stateFlags := 0 } := by decide
    have h2 : mapLookup cyclicSatState.surfaces 2 =
        some { id := 2, offset := ⟨0, 0⟩, requestedSize := ⟨0, 0⟩, desiredSize := ⟨0, 0⟩,
               relativePosition := ⟨0, 0⟩, parentSid := 1, satellites := [2, 1],
               showReason := ⟨false, false⟩, stateFlags := 0 } := by decide
    constructor
    · simp [get_renderer_context_fueled, h1, renderer_context_satellites,
        Surface.get_satellites, ih.2]
    · simp [get_renderer_context_fueled, h2, renderer_context_satellites,
        Surface.get_satellites, ih.1]

/-- C8: `get_renderer_context` terminates for every sid whose satellite relation is
acyclic (witnessed by any rank function decreasing along non-self satellite edges):
with fuel exceeding the rank the fueled recursion completes.  The satellite graph can
really be cyclic: `relate_surfaces` performs no cycle check, and after relating 2 under
1 and then 1 under 2 the two satellite lists form a cycle on which the recursion runs
out of any amount of fuel, i.e. the source recursion diverges. -/
theorem get_renderer_context_termination_spec :
    (∀ (c : InnerCoordinator) (r : Nat → Nat),
      (∀ s surf child, mapLookup c.surfaces s = some surf →
        child ∈ surf.satellites → child ≠ s → r child < r s) →
      ∀ fuel sid, r sid < fuel → (get_renderer_context_fueled fuel c sid).isSome) ∧
    ((mapLookup cyclicSatState.surfaces 1).map Surface.get_satellites = some [1, 2] ∧
     (mapLookup cyclicSatState.surfaces 2).map Surface.get_satellites = some [2, 1]) ∧
    (∀ fuel, get_renderer_context_fueled fuel cyclicSatState 1 = none) :=
  ⟨fun _c _r hr => gRC_terminates hr, by decide, fun fuel => (cyclic_diverges fuel).1⟩

/-- Witness for C8: on the acyclic two-surface state (2 a satellite of 1), rank 1 for
surface 1 and 0 elsewhere decreases along satellite edges, so fuel 2 suffices at sid 1. -/
theorem get_renderer_context_termination_witness :
    (get_renderer_context_fueled 2
      (((InnerCoordinator.new.create_surface).1.create_surface).1.relate_surfaces 2 1)
      1).isSome := by
  apply get_renderer_context_termination_spec.1
    (((InnerCoordinator.new.create_surface).1.create_surface).1.relate_surfaces 2 1)
    (fun s => if s = 1 then 1 else 0)
  · intro s surf child hlook hmem hne
    by_cases hs1 : s = 1
    · subst hs1
      have hsat : (mapLookup
          ((((InnerCoordinator.new.create_surface).1.create_surface).1.relate_surfaces
            2 1).surfaces) 1).map Surface.satellites = some [1, 2] := by decide
      rw [hlook] at hsat
      simp only [Option.map_some'] at hsat
      have hc2 : child = 2 := by
        have hmem2 : child ∈ [1, 2] := by
          rw [(Option.some_inj.mp hsat : surf.satellites = [1, 2])] at hmem
          exact hmem
        have : child = 1 ∨ child = 2 := by simpa using hmem2
        rcases this with h | h
        · exact absurd h hne
        · exact h
      subst hc2
      simp
    · by_cases hs2 : s = 2
      · subst hs2
        have hsat : (mapLookup
            ((((InnerCoordinator.new.create_surface).1.create_surface).1.relate_surfaces
              2 1).surfaces) 2).map Surface.satellites = some [2] := by decide
        rw [hlook] at hsat
        simp only [Option.map_some'] at hsat
        have : child ∈ [2] := by
          rw [(Option.some_inj.mp hsat : surf.satellites = [2])] at hmem
          exact hmem
        simp at this
        exact absurd this hne
      · have hnone : mapLookup
            ((((InnerCoordinator.new.create_surface).1.create_surface).1.relate_surfaces
              2 1).surfaces) s = none := by
          have hlist : (((InnerCoordinator.new.create_surface).1.create_surface).1.relate_surfaces
              2 1).surfaces =
            [(1, { id := 1, offset := ⟨0, 0⟩, requestedSize := ⟨0, 0⟩, desiredSize := ⟨0, 0⟩,
                   relativePosition := ⟨0, 0⟩, parentSid := 0, satellites := [1, 2],
                   showReason := ⟨false, false⟩, stateFlags := 0 }),
             (2, { id := 2, offset := ⟨0, 0⟩, requestedSize := ⟨0, 0⟩, desiredSize := ⟨0, 0⟩,
                   relativePosition := ⟨0, 0⟩, parentSid := 1, satellites := [2],
                   showReason := ⟨false, false⟩, stateFlags := 0 })] := by decide
          rw [hlist]
          simp only [mapLookup]
          rw [if_neg (fun h => hs1 h.symm), if_neg (fun h => hs2 h.symm)]
        rw [hnone] at hlook
        exact Option.noConfusion hlook
  · simp

theorem move_with_contents_root (f : Frame) (v : Vector) :
    (move_with_contents f v).get_sid = f.get_sid ∧
    (move_with_contents f v).get_geometry = f.get_geometry ∧
    (move_with_contents f v).get_position = f.get_position + v ∧
    (move_with_contents f v).get_size = f.get_size := by
  cases f with
  | node sid g pos size cs =>
    simp [move_with_contents, Frame.get_sid, Frame.get_geometry, Frame.get_position,
      Frame.get_size]

theorem set_position_root (f : Frame) (p : Vector) :
    (set_position f p).get_sid = f.get_sid ∧
    (set_position f p).get_geometry = f.get_geometry ∧
    (set_position f p).get_position = p ∧
    (set_position f p).get_size = f.get_size := by
  unfold set_position
  refine ⟨(move_with_contents_root f _).1, (move_with_contents_root f _).2.1, ?_,
    (move_with_contents_root f _).2.2.2⟩
  rw [(move_with_contents_root f _).2.2.1]
  exact Vector.add_sub_cancel _ _

theorem homogenize_root (f : Frame) (sa : InnerCoordinator) :
    (homogenize f sa).1.get_sid = f.get_sid ∧
    (homogenize f sa).1.get_geometry = f.get_geometry ∧
    (homogenize f sa).1.get_position = f.get_position ∧
    (homogenize f sa).1.get_size = f.get_size := by
  cases f with
  | node sid g pos size cs =>
    cases g <;>
      (unfold homogenize;
       split <;>
         simp [Frame.get_sid, Frame.get_geometry, Frame.get_position, Frame.get_size])

theorem set_size_root (f : Frame) (s : Size) (sa : InnerCoordinator) :
    (set_size f s sa).1.get_sid = f.get_sid ∧
    (set_size f s sa).1.get_geometry = f.get_geometry ∧
    (set_size f s sa).1.get_position = f.get_position ∧
    (set_size f s sa).1.get_size = s := by
  cases f with
  | node sid g pos old cs =>
    cases g
    case horizontal =>
      by_cases h : old.width = s.width
      · simp [set_size, h, Frame.get_sid, Frame.get_geometry, Frame.get_position,
          Frame.get_size]
      · simp only [set_size, if_neg h]
        have hh := homogenize_root (Frame.node sid Geometry.horizontal pos s cs)
          (sa.reconfigure sid s surface_state.MAXIMIZED)
        exact ⟨by rw [hh.1]; rfl, by rw [hh.2.1]; rfl, by rw [hh.2.2.1]; rfl,
          by rw [hh.2.2.2]; rfl⟩
    case vertical =>
      by_cases h : old.height = s.height
      · simp [set_size, h, Frame.get_sid, Frame.get_geometry, Frame.get_position,
          Frame.get_size]
      · simp only [set_size, if_neg h]
        have hh := homogenize_root (Frame.node sid Geometry.vertical pos s cs)
          (sa.reconfigure sid s surface_state.MAXIMIZED)
        exact ⟨by rw [hh.1]; rfl, by rw [hh.2.1]; rfl, by rw [hh.2.2.1]; rfl,
          by rw [hh.2.2.2]; rfl⟩
    case stacked =>
      simp [set_size, Frame.get_sid, Frame.get_geometry, Frame.get_position,
        Frame.get_size]
    case floating =>
      simp [set_size, Frame.get_sid, Frame.get_geometry, Frame.get_position,
        Frame.get_size]

theorem homogenize_children_areas (cs : List Frame) (csize : Size) :
    ∀ (pos inc : Vector) (sa : InnerCoordinator),
      ((homogenize_children cs csize pos inc sa).1).map
          (fun c => (c.get_position, c.get_size)) =
        (List.range cs.length).map
          (fun i => (⟨pos.x + i * inc.x, pos.y + i * inc.y⟩, csize)) := by
  induction cs with
  | nil => intro pos inc sa; simp [homogenize_children]
  | cons c rest ih =>
    intro pos inc sa
    simp only [homogenize_children, List.map_cons, List.length_cons,
      List.range_succ_eq_map, List.map_map, List.cons.injEq]
    constructor
    · have h1 := set_size_root c csize sa
      have h2 := set_position_root (set_size c csize sa).1 pos
      rw [h2.2.2.1, h2.2.2.2, h1.2.2.2]
      simp
    · rw [ih (pos + inc) inc]
      apply List.map_congr_left
      intro i _
      simp [Function.comp]
      constructor <;> (first | (push_cast; ring) | ring)

theorem homogenize_vertical_areas (sid : Nat) (pos : Vector) (size : Size)
    (cs : List Frame) (sa : InnerCoordinator) (h : cs ≠ []) :
    (homogenize (Frame.node sid .vertical pos size cs) sa).1.childAreas =
      (List.range cs.length).map
        (fun i => (⟨pos.x, pos.y + i * ((size.height / cs.length : Nat) : Int)⟩,
          (⟨size.width, size.height / cs.length⟩ : Size))) := by
  have hlen : ¬ cs.length < 1 := by
    cases cs with
    | nil => exact absurd rfl h
    | cons a l => simp
  unfold homogenize
  rw [if_neg hlen]
  simp only [Frame.childAreas, Frame.children]
  rw [homogenize_children_areas]
  apply List.map_congr_left
  intro i _
  simp

theorem homogenize_horizontal_areas (sid : Nat) (pos : Vector) (size : Size)
    (cs : List Frame) (sa : InnerCoordinator) (h : cs ≠ []) :
    (homogenize (Frame.node sid .horizontal pos size cs) sa).1.childAreas =
      (List.range cs.length).map
        (fun i => (⟨pos.x + i * ((size.width / cs.length : Nat) : Int), pos.y⟩,
          (⟨size.width / cs.length, size.height⟩ : Size))) := by
  have hlen : ¬ cs.length < 1 := by
    cases cs with
    | nil => exact absurd rfl h
    | cons a l => simp
  unfold homogenize
  rw [if_neg hlen]
  simp only [Frame.childAreas, Frame.children]
  rw [homogenize_children_areas]
  apply List.map_congr_left
  intro i _
  simp

theorem interval_disjoint_aux {a t : Int} {k : Nat} {i j : Nat} (hij : i < j)
    (h2 : t < a + i * k + k) (h3 : a + j * k ≤ t) : False := by
  have hcast : ((i : Int) + 1) ≤ j := by exact_mod_cast hij
  have hk : (0 : Int) ≤ (k : Int) := Int.natCast_nonneg k
  have h5 : ((i : Int) + 1) * k ≤ (j : Int) * k := mul_le_mul_of_nonneg_right hcast hk
  nlinarith

theorem interval_disjoint {a t : Int} {k : Nat} {i j : Nat} (hij : i ≠ j)
    (h1 : a + i * k ≤ t) (h2 : t < a + i * k + k)
    (h3 : a + j * k ≤ t) (h4 : t < a + j * k + k) : False := by
  rcases Nat.lt_or_ge i j with h | h
  · exact interval_disjoint_aux h h2 h3
  · exact interval_disjoint_aux (Nat.lt_of_le_of_ne h (fun e => hij e.symm)) h4 h1

theorem interval_cover {a t : Int} {k n : Nat} :
    (a ≤ t ∧ t < a + (n * k : Nat)) ↔
      (∃ i, i < n ∧ a + i * k ≤ t ∧ t < a + i * k + k) := by
  constructor
  · rintro ⟨h1, h2⟩
    rcases Nat.eq_zero_or_pos k with hk | hk
    · subst hk
      simp at h2
      omega
    · have hta : (0 : Int) ≤ t - a := by linarith
      have hdt : ((t - a).toNat : Int) = t - a := Int.toNat_of_nonneg hta
      set d : Nat := (t - a).toNat with hd
      have hdlt : d < n * k := by
        have h2' : (d : Int) < ((n * k : Nat) : Int) := by rw [hdt]; linarith
        exact_mod_cast h2'
      refine ⟨d / k, (Nat.div_lt_iff_lt_mul hk).mpr hdlt, ?_, ?_⟩
      · have hm : d / k * k ≤ d := Nat.div_mul_le_self d k
        have hm' : ((d / k * k : Nat) : Int) ≤ (d : Int) := Int.ofNat_le.mpr hm
        rw [Nat.cast_mul] at hm'
        linarith [hdt]
      · have hmod := Nat.div_add_mod d k
        have hmlt := Nat.mod_lt d hk
        have hlt : d < k * (d / k) + k := by omega
        have hlt' : ((d : Nat) : Int) < ((k * (d / k) + k : Nat) : Int) := Int.ofNat_lt.mpr hlt
        rw [Nat.cast_add, Nat.cast_mul] at hlt'
        have hcomm : ((k : Int)) * ((d / k : Nat) : Int) = ((d / k : Nat) : Int) * k := by
          ring
        rw [hcomm] at hlt'
        linarith [hdt]
  · rintro ⟨i, hi, h1, h2⟩
    have hik : (i + 1) * k ≤ n * k := Nat.mul_le_mul_right k hi
    have hik' : (((i + 1) * k : Nat) : Int) ≤ ((n * k : Nat) : Int) := Int.ofNat_le.mpr hik
    have hexp : (((i + 1) * k : Nat) : Int) = (i : Int) * k + k := by push_cast; ring
    have hk0 : (0 : Int) ≤ (i : Int) * k := by positivity
    constructor
    · linarith
    · linarith [hik', hexp]

/-- C2 counterexample: a vertical parent of height 10 with 3 children.  `homogenize`
assigns each child height `10 / 3 = 3` (integer division), so the point at y = 9 lies
in the parent area but in no child area: the union of the child areas does not cover
the parent, refuting the claimed partition for every directed frame. -/
theorem homogenize_partition_counterexample :
    ((homogenize (Frame.node 0 .vertical ⟨0, 0⟩ ⟨4, 10⟩
        [Frame.node 1 .stacked ⟨0, 0⟩ ⟨0, 0⟩ [],
         Frame.node 2 .stacked ⟨0, 0⟩ ⟨0, 0⟩ [],
         Frame.node 3 .stacked ⟨0, 0⟩ ⟨0, 0⟩ []]) InnerCoordinator.new).1.childAreas =
      [(⟨0, 0⟩, ⟨4, 3⟩), (⟨0, 3⟩, ⟨4, 3⟩), (⟨0, 6⟩, ⟨4, 3⟩)]) ∧
    inArea ⟨0, 0⟩ ⟨4, 10⟩ ⟨0, 9⟩ ∧
    (∀ a ∈ [((⟨0, 0⟩ : Vector), (⟨4, 3⟩ : Size)), (⟨0, 3⟩, ⟨4, 3⟩), (⟨0, 6⟩, ⟨4, 3⟩)],
      ¬ inArea a.1 a.2 ⟨0, 9⟩) := by
  refine ⟨?_, by decide, by decide⟩
  rw [homogenize_vertical_areas 0 ⟨0, 0⟩ ⟨4, 10⟩ _ InnerCoordinator.new (by simp)]
  decide

/-- C2 amended: after `homogenize` on a directed frame with n children, each child
gets the full extent of the parent in the orthogonal direction and `extent / n`
(integer division) along the layout axis, positions striding by that amount; the child
areas are pairwise disjoint, and their union covers the parent area exactly when n
divides the extent along the axis — otherwise a strip of `extent mod n` at the far end
is uncovered. -/
theorem homogenize_partition_amended :
    (∀ (sid : Nat) (pos : Vector) (size : Size) (cs : List Frame)
        (sa : InnerCoordinator), cs ≠ [] →
      ((homogenize (Frame.node sid .vertical pos size cs) sa).1.childAreas =
        (List.range cs.length).map
          (fun i => (⟨pos.x, pos.y + i * ((size.height / cs.length : Nat) : Int)⟩,
            (⟨size.width, size.height / cs.length⟩ : Size)))) ∧
      (∀ i j : Nat, i ≠ j → ∀ p : Vector,
        inArea ⟨pos.x, pos.y + i * ((size.height / cs.length : Nat) : Int)⟩
          ⟨size.width, size.height / cs.length⟩ p →
        ¬ inArea ⟨pos.x, pos.y + j * ((size.height / cs.length : Nat) : Int)⟩
          ⟨size.width, size.height / cs.length⟩ p) ∧
      (cs.length ∣ size.height → ∀ p : Vector,
        inArea pos size p ↔ ∃ i, i < cs.length ∧
          inArea ⟨pos.x, pos.y + i * ((size.height / cs.length : Nat) : Int)⟩
            ⟨size.width, size.height / cs.length⟩ p)) ∧
    (∀ (sid : Nat) (pos : Vector) (size : Size) (cs : List Frame)
        (sa : InnerCoordinator), cs ≠ [] →
      ((homogenize (Frame.node sid .horizontal pos size cs) sa).1.childAreas =
        (List.range cs.length).map
          (fun i => (⟨pos.x + i * ((size.width / cs.length : Nat) : Int), pos.y⟩,
            (⟨size.width / cs.length, size.height⟩ : Size)))) ∧
      (∀ i j : Nat, i ≠ j → ∀ p : Vector,
        inArea ⟨pos.x + i * ((size.width / cs.length : Nat) : Int), pos.y⟩
          ⟨size.width / cs.length, size.height⟩ p →
        ¬ inArea ⟨pos.x + j * ((size.width / cs.length : Nat) : Int), pos.y⟩
          ⟨size.width / cs.length, size.height⟩ p) ∧
      (cs.length ∣ size.width → ∀ p : Vector,
        inArea pos size p ↔ ∃ i, i < cs.length ∧
          inArea ⟨pos.x + i * ((size.width / cs.length : Nat) : Int), pos.y⟩
            ⟨size.width / cs.length, size.height⟩ p)) := by
  constructor
  · intro sid pos size cs sa h
    refine ⟨homogenize_vertical_areas sid pos size cs sa h, ?_, ?_⟩
    · intro i j hij p hp hq
      unfold inArea at hp hq
      exact interval_disjoint hij hp.2.2.1 hp.2.2.2 hq.2.2.1 hq.2.2.2
    · intro hdvd p
      have hkey : cs.length * (size.height / cs.length) = size.height :=
        Nat.mul_div_cancel' hdvd
      have hcast : ((size.height : Nat) : Int) =
          ((cs.length * (size.height / cs.length) : Nat) : Int) := by
        exact_mod_cast hkey.symm
      unfold inArea
      constructor
      · rintro ⟨hx1, hx2, hy1, hy2⟩
        rw [hcast] at hy2
        obtain ⟨i, hi, hb1, hb2⟩ := interval_cover.mp ⟨hy1, hy2⟩
        exact ⟨i, hi, hx1, hx2, hb1, hb2⟩
      · rintro ⟨i, hi, hx1, hx2, hy1, hy2⟩
        have hcov := interval_cover.mpr ⟨i, hi, hy1, hy2⟩
        rw [← hcast] at hcov
        exact ⟨hx1, hx2, hcov.1, hcov.2⟩
  · intro sid pos size cs sa h
    refine ⟨homogenize_horizontal_areas sid pos size cs sa h, ?_, ?_⟩
    · intro i j hij p hp hq
      unfold inArea at hp hq
      exact interval_disjoint hij hp.1 hp.2.1 hq.1 hq.2.1
    · intro hdvd p
      have hkey : cs.length * (size.width / cs.length) = size.width :=
        Nat.mul_div_cancel' hdvd
      have hcast : ((size.width : Nat) : Int) =
          ((cs.length * (size.width / cs.length) : Nat) : Int) := by
        exact_mod_cast hkey.symm
      unfold inArea
      constructor
      · rintro ⟨hx1, hx2, hy1, hy2⟩
        rw [hcast] at hx2
        obtain ⟨i, hi, hb1, hb2⟩ := interval_cover.mp ⟨hx1, hx2⟩
        exact ⟨i, hi, hb1, hb2, hy1, hy2⟩
      · rintro ⟨i, hi, hx1, hx2, hy1, hy2⟩
        have hcov := interval_cover.mpr ⟨i, hi, hx1, hx2⟩
        rw [← hcast] at hcov
        exact ⟨hcov.1, hcov.2, hy1, hy2⟩

/-- Witness for C2 amended: a vertical parent of height 10 with 2 children (2 divides
10): the children areas stride by 5 and the point (2, 7) lies in the parent iff it
lies in some child. -/
theorem homogenize_partition_witness :
    ((homogenize (Frame.node 0 Geometry.vertical ⟨0, 0⟩ ⟨6, 10⟩
        [Frame.node 1 Geometry.stacked ⟨0, 0⟩ ⟨0, 0⟩ [],
         Frame.node 2 Geometry.stacked ⟨0, 0⟩ ⟨0, 0⟩ []]) InnerCoordinator.new).1.childAreas =
      [(⟨0, 0⟩, ⟨6, 5⟩), (⟨0, 5⟩, ⟨6, 5⟩)]) ∧
    (inArea ⟨0, 0⟩ ⟨6, 10⟩ ⟨2, 7⟩ ↔ ∃ i : Nat, i < 2 ∧
      inArea ⟨(⟨0, 0⟩ : Vector).x,
          (⟨0, 0⟩ : Vector).y + (i : Int) * (((10 / 2 : Nat) : Nat) : Int)⟩
        ⟨6, 10 / 2⟩ ⟨2, 7⟩) := by
  have h := homogenize_partition_amended.1 0 ⟨0, 0⟩ ⟨6, 10⟩
    [Frame.node 1 Geometry.stacked ⟨0, 0⟩ ⟨0, 0⟩ [],
     Frame.node 2 Geometry.stacked ⟨0, 0⟩ ⟨0, 0⟩ []] InnerCoordinator.new (by simp)
  refine ⟨by rw [h.1]; decide, ?_⟩
  exact h.2.2 (by decide) ⟨2, 7⟩

theorem reconfigure_lookup_ne (c : InnerCoordinator) (sid : Nat) (sz : Size) (fl : Nat)
    (t : Nat) (ht : t ≠ sid) :
    mapLookup (c.reconfigure sid sz fl).surfaces t = mapLookup c.surfaces t := by
  unfold InnerCoordinator.reconfigure
  rcases h : mapLookup c.surfaces sid with _ | s
  · rfl
  · simp only
    split
    · simp [InnerCoordinator.emit, mapLookup_mapInsert_ne _ _ _ _ (fun e => ht e.symm)]
    · rfl

theorem reconfigure_none (c : InnerCoordinator) (sid : Nat) (sz : Size) (fl : Nat)
    (h : mapLookup c.surfaces sid = none) : c.reconfigure sid sz fl = c := by
  unfold InnerCoordinator.reconfigure
  rw [h]

theorem reconfigure_noop (c : InnerCoordinator) (sid : Nat) (sz : Size) (fl : Nat)
    (s : Surface) (h : mapLookup c.surfaces sid = some s)
    (h1 : s.desiredSize = sz) (h2 : s.stateFlags = fl) :
    c.reconfigure sid sz fl = c := by
  unfold InnerCoordinator.reconfigure
  rw [h]
  simp [h1, h2]

theorem reconfigure_lookup_self (c : InnerCoordinator) (sid : Nat) (sz : Size) (fl : Nat)
    (s : Surface) (h : mapLookup c.surfaces sid = some s) :
    mapLookup (c.reconfigure sid sz fl).surfaces sid =
      some { s with desiredSize := sz, stateFlags := fl } := by
  unfold InnerCoordinator.reconfigure
  rw [h]
  simp only
  split
  · simp [InnerCoordinator.emit]
  · rename_i hcond
    push_neg at hcond
    rw [h]
    cases s
    simp only at hcond
    simp [hcond.1, hcond.2]

theorem reconfigure_lookup_none (c : InnerCoordinator) (sid : Nat) (sz : Size) (fl : Nat)
    (t : Nat) (h : mapLookup c.surfaces t = none) :
    mapLookup (c.reconfigure sid sz fl).surfaces t = none := by
  by_cases ht : t = sid
  · subst ht
    rw [reconfigure_none c _ _ _ h]
    exact h
  · rw [reconfigure_lookup_ne _ _ _ _ _ ht]
    exact h

theorem mem_nodesOfList {u : Frame} {cs : List Frame} :
    u ∈ nodesOfList cs ↔ ∃ c ∈ cs, u ∈ nodesOf c := by
  induction cs with
  | nil => simp [nodesOfList]
  | cons c rest ih => simp [nodesOfList, ih]

theorem collectSids_node (sid : Nat) (g : Geometry) (pos : Vector) (size : Size)
    (cs : List Frame) :
    collectSids (Frame.node sid g pos size cs) = sid :: collectSidsList cs := by
  simp [collectSids, collectSidsList, nodesOf, Frame.get_sid]

theorem collectSidsList_cons (c : Frame) (cs : List Frame) :
    collectSidsList (c :: cs) = collectSids c ++ collectSidsList cs := by
  simp [collectSidsList, collectSids, nodesOfList]

theorem collectSidsList_nil : collectSidsList [] = [] := rfl

theorem mem_collectSids {u : Frame} {f : Frame} (hu : u ∈ nodesOf f) :
    u.get_sid ∈ collectSids f :=
  List.mem_map.mpr ⟨u, hu, rfl⟩

theorem shaped_node {sid : Nat} {g : Geometry} {pos : Vector} {size : Size}
    {cs : List Frame} :
    shaped (Frame.node sid g pos size cs) ↔
      (∀ c ∈ cs, fits g size c) ∧ (∀ c ∈ cs, shaped c) := by
  unfold shaped
  constructor
  · intro h
    refine ⟨?_, ?_⟩
    · intro c hc
      have := h (Frame.node sid g pos size cs) (by simp [nodesOf])
      simpa [Frame.children, Frame.get_geometry, Frame.get_size] using this c hc
    · intro c hc u hu
      refine h u ?_
      simp only [nodesOf, List.mem_cons]
      exact Or.inr (mem_nodesOfList.mpr ⟨c, hc, hu⟩)
  · rintro ⟨h1, h2⟩ u hu
    simp only [nodesOf, List.mem_cons] at hu
    rcases hu with h | h
    · subst h
      intro c hc
      simp only [Frame.children] at hc
      simpa [Frame.get_geometry, Frame.get_size] using h1 c hc
    · obtain ⟨c, hc, hu2⟩ := mem_nodesOfList.mp h
      exact h2 c hc u hu2

theorem good_node {sa : InnerCoordinator} {sid : Nat} {g : Geometry} {pos : Vector}
    {size : Size} {cs : List Frame} :
    good sa (Frame.node sid g pos size cs) ↔
      headFits sa (Frame.node sid g pos size cs) ∧ (∀ c ∈ cs, good sa c) := by
  unfold good
  constructor
  · intro h
    refine ⟨h _ (by simp [nodesOf]), ?_⟩
    intro c hc u hu
    refine h u ?_
    simp only [nodesOf, List.mem_cons]
    exact Or.inr (mem_nodesOfList.mpr ⟨c, hc, hu⟩)
  · rintro ⟨h1, h2⟩ u hu
    simp only [nodesOf, List.mem_cons] at hu
    rcases hu with h | h
    · subst h; exact h1
    · obtain ⟨c, hc, hu2⟩ := mem_nodesOfList.mp h
      exact h2 c hc u hu2

theorem good_congr {sa sa' : InnerCoordinator} {f : Frame}
    (hz : mapLookup sa'.surfaces 0 = none)
    (hagree : ∀ t ∈ collectSids f, t ≠ 0 →
      mapLookup sa'.surfaces t = mapLookup sa.surfaces t)
    (h : good sa f) : good sa' f := by
  intro u hu
  have hs := h u hu
  by_cases h0 : u.get_sid = 0
  · unfold headFits
    rw [h0, hz]
    trivial
  · unfold headFits at hs ⊢
    rw [hagree u.get_sid (mem_collectSids hu) h0]
    exact hs

theorem move_list_eq_map (cs : List Frame) (v : Vector) :
    move_list cs v = cs.map (fun c => move_with_contents c v) := by
  induction cs with
  | nil => simp [move_list]
  | cons c rest ih => simp [move_list, ih]

theorem measure_le_of_mem {c : Frame} {cs : List Frame} (h : c ∈ cs) :
    c.measure ≤ measureList cs := by
  induction cs with
  | nil => cases h
  | cons a l ih =>
    rcases List.mem_cons.mp h with h | h
    · subst h
      simp [measureList]
    · have := ih h
      have := Frame.measure_pos a
      simp [measureList]
      omega

theorem fits_move (g : Geometry) (size : Size) (c : Frame) (v : Vector) :
    fits g size (move_with_contents c v) ↔ fits g size c := by
  cases g <;> simp [fits, (move_with_contents_root c v).2.2.2]

theorem collectSidsList_map_congr (v : Vector) : ∀ (cs : List Frame),
    (∀ c ∈ cs, collectSids (move_with_contents c v) = collectSids c) →
    collectSidsList (cs.map (fun c => move_with_contents c v)) = collectSidsList cs := by
  intro cs h
  induction cs with
  | nil => simp [collectSidsList_nil]
  | cons c rest ih =>
    rw [List.map_cons, collectSidsList_cons, collectSidsList_cons, h c (by simp)]
    congr 1
    exact ih (fun c hc => h c (by simp [hc]))

theorem move_preserves_aux : ∀ (N : Nat) (f : Frame), f.measure ≤ N → ∀ (v : Vector),
    collectSids (move_with_contents f v) = collectSids f ∧
    (shaped (move_with_contents f v) ↔ shaped f) ∧
    (∀ sa : InnerCoordinator, good sa (move_with_contents f v) ↔ good sa f) := by
  intro N
  induction N with
  | zero => intro f hf; have := Frame.measure_pos f; omega
  | succ N ih =>
    intro f hf v
    cases f with
    | node sid g pos size cs =>
      have hstep : move_with_contents (Frame.node sid g pos size cs) v =
          Frame.node sid g (pos + v) size (cs.map (fun c => move_with_contents c v)) := by
        simp [move_with_contents, move_list_eq_map]
      have hmem : ∀ c ∈ cs, c.measure ≤ N := by
        intro c hc
        have h1 := measure_le_of_mem hc
        simp [Frame.measure] at hf
        omega
      rw [hstep]
      refine ⟨?_, ?_, ?_⟩
      · rw [collectSids_node, collectSids_node]
        congr 1
        exact collectSidsList_map_congr v cs (fun c hc => (ih c (hmem c hc) v).1)
      · rw [shaped_node, shaped_node]
        constructor
        · rintro ⟨h1, h2⟩
          refine ⟨?_, ?_⟩
          · intro c hc
            have := h1 _ (List.mem_map.mpr ⟨c, hc, rfl⟩)
            exact (fits_move g size c v).mp this
          · intro c hc
            have := h2 _ (List.mem_map.mpr ⟨c, hc, rfl⟩)
            exact ((ih c (hmem c hc) v).2.1).mp this
        · rintro ⟨h1, h2⟩
          refine ⟨?_, ?_⟩
          · intro c' hc'
            obtain ⟨c, hc, rfl⟩ := List.mem_map.mp hc'
            exact (fits_move g size c v).mpr (h1 c hc)
          · intro c' hc'
            obtain ⟨c, hc, rfl⟩ := List.mem_map.mp hc'
            exact ((ih c (hmem c hc) v).2.1).mpr (h2 c hc)
      · intro sa
        rw [good_node, good_node]
        have hhead : headFits sa (Frame.node sid g (pos + v) size
            (cs.map (fun c => move_with_contents c v))) ↔
            headFits sa (Frame.node sid g pos size cs) := by
          unfold headFits
          simp [Frame.get_sid, Frame.get_size]
        rw [hhead]
        constructor
        · rintro ⟨h1, h2⟩
          refine ⟨h1, ?_⟩
          intro c hc
          have := h2 _ (List.mem_map.mpr ⟨c, hc, rfl⟩)
          exact ((ih c (hmem c hc) v).2.2 sa).mp this
        · rintro ⟨h1, h2⟩
          refine ⟨h1, ?_⟩
          intro c' hc'
          obtain ⟨c, hc, rfl⟩ := List.mem_map.mp hc'
          exact ((ih c (hmem c hc) v).2.2 sa).mpr (h2 c hc)

theorem move_preserves (f : Frame) (v : Vector) :
    collectSids (move_with_contents f v) = collectSids f ∧
    (shaped (move_with_contents f v) ↔ shaped f) ∧
    (∀ sa : InnerCoordinator, good sa (move_with_contents f v) ↔ good sa f) :=
  move_preserves_aux f.measure f le_rfl v

theorem set_position_preserves (f : Frame) (p : Vector) :
    collectSids (set_position f p) = collectSids f ∧
    (shaped (set_position f p) ↔ shaped f) ∧
    (∀ sa : InnerCoordinator, good sa (set_position f p) ↔ good sa f) :=
  move_preserves f _

theorem validNodup_node_elim {sid : Nat} {g : Geometry} {pos : Vector} {size : Size}
    {cs : List Frame} (h : validNodup (Frame.node sid g pos size cs)) :
    validNodupList cs ∧ (sid ≠ 0 → sid ∉ (collectSidsList cs).filter (· ≠ 0)) := by
  unfold validNodup at h
  rw [collectSids_node] at h
  by_cases h0 : sid = 0
  · subst h0
    rw [List.filter_cons_of_neg (by simp)] at h
    exact ⟨h, by simp⟩
  · rw [List.filter_cons_of_pos (by simpa using h0)] at h
    have := List.nodup_cons.mp h
    exact ⟨this.2, fun _ => this.1⟩

theorem validNodupList_cons_elim {c : Frame} {cs : List Frame}
    (h : validNodupList (c :: cs)) :
    validNodup c ∧ validNodupList cs ∧
      (∀ t ∈ collectSids c, t ≠ 0 → t ∉ collectSidsList cs) := by
  unfold validNodupList at h
  rw [collectSidsList_cons, List.filter_append] at h
  obtain ⟨h1, h2, h3⟩ := List.nodup_append.mp h
  refine ⟨h1, h2, ?_⟩
  intro t ht ht0 htc
  exact h3 (List.mem_filter.mpr ⟨ht, by simpa using ht0⟩)
    (List.mem_filter.mpr ⟨htc, by simpa using ht0⟩)

theorem estSS_step (N : Nat) (ih : ∀ M, M < N → establishes_below M) :
    ∀ (f : Frame) (size : Size) (sa : InnerCoordinator),
      3 * f.measure + 2 ≤ N → establishes_set_size f size sa := by
  intro f size sa hg
  cases f with
  | node sid g pos old cs =>
    have hm : (Frame.node sid g pos old cs).measure = 1 + measureList cs := by
      simp [Frame.measure]
    rw [hm] at hg
    have ihm := ih (N - 1) (by omega)
    -- common head facts
    have hlen : 3 * measureList cs + 3 ≤ N - 1 := by omega
    have hhomg : 3 * (Frame.node sid g pos size cs).measure + 1 ≤ N - 1 := by
      simp [Frame.measure]; omega
    -- the head-fits fact for the reconfigured parent, shared by all branches
    have hhead : ∀ (sa2 : InnerCoordinator) (cs' : List Frame),
        (∀ t, t ∉ collectSidsList cs →
          mapLookup sa2.surfaces t =
            mapLookup (sa.reconfigure sid size surface_state.MAXIMIZED).surfaces t) →
        (∀ t, mapLookup (sa.reconfigure sid size surface_state.MAXIMIZED).surfaces t = none →
          mapLookup sa2.surfaces t = none) →
        validNodup (Frame.node sid g pos old cs) →
        mapLookup sa.surfaces 0 = none →
        ∀ (g' : Geometry) (pos' : Vector),
          headFits sa2 (Frame.node sid g' pos' size cs') := by
      intro sa2 cs' huntouched hnone hnod hz g' pos'
      obtain ⟨hnodl, hsid⟩ := validNodup_node_elim hnod
      have hz1 : mapLookup (sa.reconfigure sid size surface_state.MAXIMIZED).surfaces 0
          = none := reconfigure_lookup_none _ _ _ _ _ hz
      by_cases h0 : sid = 0
      · subst h0
        unfold headFits
        rw [show (Frame.node 0 g' pos' size cs').get_sid = 0 from rfl, hnone 0 hz1]
        trivial
      · have hnotin : sid ∉ collectSidsList cs := by
          intro hin
          exact hsid h0 (List.mem_filter.mpr ⟨hin, by simpa using h0⟩)
        unfold headFits
        rw [show (Frame.node sid g' pos' size cs').get_sid = sid from rfl,
          huntouched sid hnotin]
        rcases hl : mapLookup sa.surfaces sid with _ | srec
        · rw [reconfigure_none _ _ _ _ hl, hl]
          trivial
        · rw [reconfigure_lookup_self _ _ _ _ _ hl]
          exact ⟨rfl, rfl⟩
    cases g
    case horizontal =>
      by_cases hw : old.width = size.width
      · have hstep : set_size (Frame.node sid Geometry.horizontal pos old cs) size sa =
            (Frame.node sid Geometry.horizontal pos size
              (set_size_heights cs size.height
                (sa.reconfigure sid size surface_state.MAXIMIZED)).1,
             (set_size_heights cs size.height
               (sa.reconfigure sid size surface_state.MAXIMIZED)).2) := by
          simp [set_size, hw]
        obtain ⟨e1, e2, e3, e4, e5⟩ :=
          ihm.2.1 cs size.height (sa.reconfigure sid size surface_state.MAXIMIZED) hlen
        unfold establishes_set_size
        rw [hstep]
        refine ⟨?_, ?_, ?_, ?_, ?_⟩
        · rw [collectSids_node, collectSids_node, e1]
        · intro t ht
          rw [collectSids_node] at ht
          simp only [List.mem_cons, not_or] at ht
          rw [e2 t ht.2]
          exact reconfigure_lookup_ne _ _ _ _ _ ht.1
        · intro t ht
          exact e3 t (reconfigure_lookup_none _ _ _ _ _ ht)
        · rw [shaped_node]
          exact ⟨fun c' hc' => by simpa [fits] using (e4 c' hc').1,
            fun c' hc' => (e4 c' hc').2⟩
        · intro hnod hz
          obtain ⟨hnodl, _⟩ := validNodup_node_elim hnod
          have hz1 := reconfigure_lookup_none sa sid size surface_state.MAXIMIZED 0 hz
          rw [good_node]
          exact ⟨hhead _ _ e2 e3 hnod hz _ _, fun c' hc' => e5 hnodl hz1 c' hc'⟩
      · have hstep : set_size (Frame.node sid Geometry.horizontal pos old cs) size sa =
            homogenize (Frame.node sid Geometry.horizontal pos size cs)
              (sa.reconfigure sid size surface_state.MAXIMIZED) := by
          simp [set_size, hw]
        obtain ⟨e1, e2, e3, e4, e5⟩ := ihm.2.2.2.2.1
          (Frame.node sid Geometry.horizontal pos size cs)
          (sa.reconfigure sid size surface_state.MAXIMIZED) hhomg
        simp only [Frame.children] at e2 e5
        unfold establishes_set_size
        rw [hstep]
        refine ⟨?_, ?_, ?_, ?_, ?_⟩
        · rw [e1, collectSids_node, collectSids_node]
        · intro t ht
          rw [collectSids_node] at ht
          simp only [List.mem_cons, not_or] at ht
          rw [e2 t ht.2]
          exact reconfigure_lookup_ne _ _ _ _ _ ht.1
        · intro t ht
          exact e3 t (reconfigure_lookup_none _ _ _ _ _ ht)
        · exact e4 (by simp [Frame.get_geometry])
        · intro hnod hz
          obtain ⟨hnodl, _⟩ := validNodup_node_elim hnod
          have hz1 := reconfigure_lookup_none sa sid size surface_state.MAXIMIZED 0 hz
          have hch := e5 (by simp [Frame.get_geometry]) hnodl hz1
          have hroot := homogenize_root (Frame.node sid Geometry.horizontal pos size cs)
            (sa.reconfigure sid size surface_state.MAXIMIZED)
          rcases hres : (homogenize (Frame.node sid Geometry.horizontal pos size cs)
              (sa.reconfigure sid size surface_state.MAXIMIZED)).1
            with ⟨sid', g', pos', size', cs''⟩
          rw [hres] at hroot hch
          have hsid' : sid' = sid := by
            simpa [Frame.get_sid] using hroot.1
          have hsize' : size' = size := by
            simpa [Frame.get_size] using hroot.2.2.2
          subst hsid' hsize'
          rw [good_node]
          refine ⟨hhead _ _ e2 e3 hnod hz _ _, ?_⟩
          intro c' hc'
          exact hch c' (by simpa [Frame.children] using hc')
    case vertical =>
      by_cases hw : old.height = size.height
      · have hstep : set_size (Frame.node sid Geometry.vertical pos old cs) size sa =
            (Frame.node sid Geometry.vertical pos size
              (set_size_widths cs size.width
                (sa.reconfigure sid size surface_state.MAXIMIZED)).1,
             (set_size_widths cs size.width
               (sa.reconfigure sid size surface_state.MAXIMIZED)).2) := by
          simp [set_size, hw]
        obtain ⟨e1, e2, e3, e4, e5⟩ :=
          ihm.2.2.1 cs size.width (sa.reconfigure sid size surface_state.MAXIMIZED) hlen
        unfold establishes_set_size
        rw [hstep]
        refine ⟨?_, ?_, ?_, ?_, ?_⟩
        · rw [collectSids_node, collectSids_node, e1]
        · intro t ht
          rw [collectSids_node] at ht
          simp only [List.mem_cons, not_or] at ht
          rw [e2 t ht.2]
          exact reconfigure_lookup_ne _ _ _ _ _ ht.1
        · intro t ht
          exact e3 t (reconfigure_lookup_none _ _ _ _ _ ht)
        · rw [shaped_node]
          exact ⟨fun c' hc' => by simpa [fits] using (e4 c' hc').1,
            fun c' hc' => (e4 c' hc').2⟩
        · intro hnod hz
          obtain ⟨hnodl, _⟩ := validNodup_node_elim hnod
          have hz1 := reconfigure_lookup_none sa sid size surface_state.MAXIMIZED 0 hz
          rw [good_node]
          exact ⟨hhead _ _ e2 e3 hnod hz _ _, fun c' hc' => e5 hnodl hz1 c' hc'⟩
      · have hstep : set_size (Frame.node sid Geometry.vertical pos old cs) size sa =
            homogenize (Frame.node sid Geometry.vertical pos size cs)
              (sa.reconfigure sid size surface_state.MAXIMIZED) := by
          simp [set_size, hw]
        obtain ⟨e1, e2, e3, e4, e5⟩ := ihm.2.2.2.2.1
          (Frame.node sid Geometry.vertical pos size cs)
          (sa.reconfigure sid size surface_state.MAXIMIZED) hhomg
        simp only [Frame.children] at e2 e5
        unfold establishes_set_size
        rw [hstep]
        refine ⟨?_, ?_, ?_, ?_, ?_⟩
        · rw [e1, collectSids_node, collectSids_node]
        · intro t ht
          rw [collectSids_node] at ht
          simp only [List.mem_cons, not_or] at ht
          rw [e2 t ht.2]
          exact reconfigure_lookup_ne _ _ _ _ _ ht.1
        · intro t ht
          exact e3 t (reconfigure_lookup_none _ _ _ _ _ ht)
        · exact e4 (by simp [Frame.get_geometry])
        · intro hnod hz
          obtain ⟨hnodl, _⟩ := validNodup_node_elim hnod
          have hz1 := reconfigure_lookup_none sa sid size surface_state.MAXIMIZED 0 hz
          have hch := e5 (by simp [Frame.get_geometry]) hnodl hz1
          have hroot := homogenize_root (Frame.node sid Geometry.vertical pos size cs)
            (sa.reconfigure sid size surface_state.MAXIMIZED)
          rcases hres : (homogenize (Frame.node sid Geometry.vertical pos size cs)
              (sa.reconfigure sid size surface_state.MAXIMIZED)).1
            with ⟨sid', g', pos', size', cs''⟩
          rw [hres] at hroot hch
          have hsid' : sid' = sid := by
            simpa [Frame.get_sid] using hroot.1
          have hsize' : size' = size := by
            simpa [Frame.get_size] using hroot.2.2.2
          subst hsid' hsize'
          rw [good_node]
          refine ⟨hhead _ _ e2 e3 hnod hz _ _, ?_⟩
          intro c' hc'
          exact hch c' (by simpa [Frame.children] using hc')
    case stacked =>
      have hstep : set_size (Frame.node sid Geometry.stacked pos old cs) size sa =
          (Frame.node sid Geometry.stacked pos size
            (set_size_all cs size
              (sa.reconfigure sid size surface_state.MAXIMIZED)).1,
           (set_size_all cs size
             (sa.reconfigure sid size surface_state.MAXIMIZED)).2) := by
        simp [set_size]
      obtain ⟨e1, e2, e3, e4, e5⟩ :=
        ihm.2.2.2.1 cs size (sa.reconfigure sid size surface_state.MAXIMIZED) hlen
      unfold establishes_set_size
      rw [hstep]
      refine ⟨?_, ?_, ?_, ?_, ?_⟩
      · rw [collectSids_node, collectSids_node, e1]
      · intro t ht
        rw [collectSids_node] at ht
        simp only [List.mem_cons, not_or] at ht
        rw [e2 t ht.2]
        exact reconfigure_lookup_ne _ _ _ _ _ ht.1
      · intro t ht
        exact e3 t (reconfigure_lookup_none _ _ _ _ _ ht)
      · rw [shaped_node]
        exact ⟨fun c' hc' => by simpa [fits] using (e4 c' hc').1,
          fun c' hc' => (e4 c' hc').2⟩
      · intro hnod hz
        obtain ⟨hnodl, _⟩ := validNodup_node_elim hnod
        have hz1 := reconfigure_lookup_none sa sid size surface_state.MAXIMIZED 0 hz
        rw [good_node]
        exact ⟨hhead _ _ e2 e3 hnod hz _ _, fun c' hc' => e5 hnodl hz1 c' hc'⟩
    case floating =>
      have hstep : set_size (Frame.node sid Geometry.floating pos old cs) size sa =
          (Frame.node sid Geometry.floating pos size
            (set_size_all cs size
              (sa.reconfigure sid size surface_state.MAXIMIZED)).1,
           (set_size_all cs size
             (sa.reconfigure sid size surface_state.MAXIMIZED)).2) := by
        simp [set_size]
      obtain ⟨e1, e2, e3, e4, e5⟩ :=
        ihm.2.2.2.1 cs size (sa.reconfigure sid size surface_state.MAXIMIZED) hlen
      unfold establishes_set_size
      rw [hstep]
      refine ⟨?_, ?_, ?_, ?_, ?_⟩
      · rw [collectSids_node, collectSids_node, e1]
      · intro t ht
        rw [collectSids_node] at ht
        simp only [List.mem_cons, not_or] at ht
        rw [e2 t ht.2]
        exact reconfigure_lookup_ne _ _ _ _ _ ht.1
      · intro t ht
        exact e3 t (reconfigure_lookup_none _ _ _ _ _ ht)
      · rw [shaped_node]
        exact ⟨fun c' hc' => by simpa [fits] using (e4 c' hc').1,
          fun c' hc' => (e4 c' hc').2⟩
      · intro hnod hz
        obtain ⟨hnodl, _⟩ := validNodup_node_elim hnod
        have hz1 := reconfigure_lookup_none sa sid size surface_state.MAXIMIZED 0 hz
        rw [good_node]
        exact ⟨hhead _ _ e2 e3 hnod hz _ _, fun c' hc' => e5 hnodl hz1 c' hc'⟩

theorem estSH_step (N : Nat) (ih : ∀ M, M < N → establishes_below M) :
    ∀ (cs : List Frame) (h : Nat) (sa : InnerCoordinator),
      3 * measureList cs + 3 ≤ N → establishes_heights cs h sa := by
  intro cs h sa hg
  cases cs with
  | nil =>
    unfold establishes_heights
    simp [set_size_heights, collectSidsList_nil]
  | cons c rest =>
    have hmc := Frame.measure_pos c
    have hml : measureList (c :: rest) = c.measure + measureList rest := by
      simp [measureList]
    rw [hml] at hg
    have ihm := ih (N - 1) (by omega)
    have hstep : set_size_heights (c :: rest) h sa =
        ((set_size c ⟨c.get_size.width, h⟩ sa).1 ::
          (set_size_heights rest h (set_size c ⟨c.get_size.width, h⟩ sa).2).1,
         (set_size_heights rest h (set_size c ⟨c.get_size.width, h⟩ sa).2).2) := by
      simp [set_size_heights]
    obtain ⟨f1, f2, f3, f4, f5⟩ := ihm.1 c ⟨c.get_size.width, h⟩ sa (by omega)
    obtain ⟨g1, g2, g3, g4, g5⟩ := ihm.2.1 rest h
      (set_size c ⟨c.get_size.width, h⟩ sa).2 (by omega)
    unfold establishes_heights
    rw [hstep]
    refine ⟨?_, ?_, ?_, ?_, ?_⟩
    · rw [collectSidsList_cons, collectSidsList_cons, f1, g1]
    · intro t ht
      rw [collectSidsList_cons] at ht
      simp only [List.mem_append, not_or] at ht
      rw [g2 t ht.2, f2 t ht.1]
    · intro t ht
      exact g3 t (f3 t ht)
    · intro c' hc'
      rcases List.mem_cons.mp hc' with hc' | hc'
      · subst hc'
        refine ⟨?_, f4⟩
        rw [(set_size_root c ⟨c.get_size.width, h⟩ sa).2.2.2]
      · exact g4 c' hc'
    · intro hnod hz c' hc'
      obtain ⟨hnc, hnrest, hdisj⟩ := validNodupList_cons_elim hnod
      have hz1 : mapLookup (set_size c ⟨c.get_size.width, h⟩ sa).2.surfaces 0 = none := f3 0 hz
      rcases List.mem_cons.mp hc' with hc' | hc'
      · subst hc'
        refine good_congr (g3 0 hz1) ?_ (f5 hnc hz)
        intro t htc ht0
        rw [f1] at htc
        exact g2 t (fun hmem => hdisj t htc ht0 hmem)
      · exact g5 hnrest hz1 c' hc'

theorem estSW_step (N : Nat) (ih : ∀ M, M < N → establishes_below M) :
    ∀ (cs : List Frame) (w : Nat) (sa : InnerCoordinator),
      3 * measureList cs + 3 ≤ N → establishes_widths cs w sa := by
  intro cs w sa hg
  cases cs with
  | nil =>
    unfold establishes_widths
    simp [set_size_widths, collectSidsList_nil]
  | cons c rest =>
    have hmc := Frame.measure_pos c
    have hml : measureList (c :: rest) = c.measure + measureList rest := by
      simp [measureList]
    rw [hml] at hg
    have ihm := ih (N - 1) (by omega)
    have hstep : set_size_widths (c :: rest) w sa =
        ((set_size c ⟨w, c.get_size.height⟩ sa).1 ::
          (set_size_widths rest w (set_size c ⟨w, c.get_size.height⟩ sa).2).1,
         (set_size_widths rest w (set_size c ⟨w, c.get_size.height⟩ sa).2).2) := by
      simp [set_size_widths]
    obtain ⟨f1, f2, f3, f4, f5⟩ := ihm.1 c ⟨w, c.get_size.height⟩ sa (by omega)
    obtain ⟨g1, g2, g3, g4, g5⟩ := ihm.2.2.1 rest w
      (set_size c ⟨w, c.get_size.height⟩ sa).2 (by omega)
    unfold establishes_widths
    rw [hstep]
    refine ⟨?_, ?_, ?_, ?_, ?_⟩
    · rw [collectSidsList_cons, collectSidsList_cons, f1, g1]
    · intro t ht
      rw [collectSidsList_cons] at ht
      simp only [List.mem_append, not_or] at ht
      rw [g2 t ht.2, f2 t ht.1]
    · intro t ht
      exact g3 t (f3 t ht)
    · intro c' hc'
      rcases List.mem_cons.mp hc' with hc' | hc'
      · subst hc'
        refine ⟨?_, f4⟩
        rw [(set_size_root c ⟨w, c.get_size.height⟩ sa).2.2.2]
      · exact g4 c' hc'
    · intro hnod hz c' hc'
      obtain ⟨hnc, hnrest, hdisj⟩ := validNodupList_cons_elim hnod
      have hz1 : mapLookup (set_size c ⟨w, c.get_size.height⟩ sa).2.surfaces 0 = none := f3 0 hz
      rcases List.mem_cons.mp hc' with hc' | hc'
      · subst hc'
        refine good_congr (g3 0 hz1) ?_ (f5 hnc hz)
        intro t htc ht0
        rw [f1] at htc
        exact g2 t (fun hmem => hdisj t htc ht0 hmem)
      · exact g5 hnrest hz1 c' hc'

theorem estSA_step (N : Nat) (ih : ∀ M, M < N → establishes_below M) :
    ∀ (cs : List Frame) (size : Size) (sa : InnerCoordinator),
      3 * measureList cs + 3 ≤ N → establishes_all cs size sa := by
  intro cs size sa hg
  cases cs with
  | nil =>
    unfold establishes_all
    simp [set_size_all, collectSidsList_nil]
  | cons c rest =>
    have hmc := Frame.measure_pos c
    have hml : measureList (c :: rest) = c.measure + measureList rest := by
      simp [measureList]
    rw [hml] at hg
    have ihm := ih (N - 1) (by omega)
    have hstep : set_size_all (c :: rest) size sa =
        ((set_size c size sa).1 ::
          (set_size_all rest size (set_size c size sa).2).1,
         (set_size_all rest size (set_size c size sa).2).2) := by
      simp [set_size_all]
    obtain ⟨f1, f2, f3, f4, f5⟩ := ihm.1 c size sa (by omega)
    obtain ⟨g1, g2, g3, g4, g5⟩ := ihm.2.2.2.1 rest size
      (set_size c size sa).2 (by omega)
    unfold establishes_all
    rw [hstep]
    refine ⟨?_, ?_, ?_, ?_, ?_⟩
    · rw [collectSidsList_cons, collectSidsList_cons, f1, g1]
    · intro t ht
      rw [collectSidsList_cons] at ht
      simp only [List.mem_append, not_or] at ht
      rw [g2 t ht.2, f2 t ht.1]
    · intro t ht
      exact g3 t (f3 t ht)
    · intro c' hc'
      rcases List.mem_cons.mp hc' with hc' | hc'
      · subst hc'
        refine ⟨?_, f4⟩
        exact (set_size_root c size sa).2.2.2
      · exact g4 c' hc'
    · intro hnod hz c' hc'
      obtain ⟨hnc, hnrest, hdisj⟩ := validNodupList_cons_elim hnod
      have hz1 : mapLookup (set_size c size sa).2.surfaces 0 = none := f3 0 hz
      rcases List.mem_cons.mp hc' with hc' | hc'
      · subst hc'
        refine good_congr (g3 0 hz1) ?_ (f5 hnc hz)
        intro t htc ht0
        rw [f1] at htc
        exact g2 t (fun hmem => hdisj t htc ht0 hmem)
      · exact g5 hnrest hz1 c' hc'

theorem estHom_step (N : Nat) (ih : ∀ M, M < N → establishes_below M) :
    ∀ (f : Frame) (sa : InnerCoordinator),
      3 * f.measure + 1 ≤ N → establishes_homogenize f sa := by
  intro f sa hg
  cases f with
  | node sid g pos size cs =>
    have hm : (Frame.node sid g pos size cs).measure = 1 + measureList cs := by
      simp [Frame.measure]
    rw [hm] at hg
    have ihm := ih (N - 1) (by omega)
    by_cases hlen : cs.length < 1
    · have hcs : cs = [] := by
        cases cs with
        | nil => rfl
        | cons a l => simp at hlen
      subst hcs
      have hstep : homogenize (Frame.node sid g pos size []) sa =
          (Frame.node sid g pos size [], sa) := by
        cases g <;> simp [homogenize]
      unfold establishes_homogenize
      rw [hstep]
      refine ⟨rfl, fun t _ => rfl, fun t ht => ht, ?_, ?_⟩
      · intro _
        rw [shaped_node]
        exact ⟨fun c hc => absurd hc (List.not_mem_nil c),
          fun c hc => absurd hc (List.not_mem_nil c)⟩
      · intro _ _ _ c' hc'
        simp [Frame.children] at hc'
    · cases g with
      | floating =>
        have hstep : homogenize (Frame.node sid Geometry.floating pos size cs) sa =
            (Frame.node sid Geometry.floating pos size cs, sa) := by
          simp [homogenize, hlen]
        unfold establishes_homogenize
        rw [hstep]
        refine ⟨rfl, fun t _ => rfl, fun t ht => ht, ?_, ?_⟩
        · intro hgeo
          exact absurd (by simp [Frame.get_geometry]) hgeo
        · intro hgeo
          exact absurd (by simp [Frame.get_geometry]) hgeo
      | stacked =>
        have hstep : homogenize (Frame.node sid Geometry.stacked pos size cs) sa =
            (Frame.node sid Geometry.stacked pos size
              (homogenize_children cs size pos (⟨0, 0⟩ : Vector) sa).1,
             (homogenize_children cs size pos (⟨0, 0⟩ : Vector) sa).2) := by
          simp [homogenize, hlen]
        obtain ⟨e1, e2, e3, e4, e5⟩ := ihm.2.2.2.2.2 cs size pos (⟨0, 0⟩ : Vector) sa (by omega)
        unfold establishes_homogenize
        rw [hstep]
        refine ⟨?_, ?_, ?_, ?_, ?_⟩
        · rw [collectSids_node, collectSids_node, e1]
        · intro t ht
          simp only [Frame.children] at ht
          exact e2 t ht
        · exact e3
        · intro _
          rw [shaped_node]
          refine ⟨?_, fun c' hc' => (e4 c' hc').2⟩
          intro c' hc'
          have h4 := (e4 c' hc').1
          simp [fits, h4]
        · intro _ hnodl hz c' hc'
          simp only [Frame.children] at hnodl hc' ⊢
          exact e5 hnodl hz c' hc'
      | vertical =>
        have hstep : homogenize (Frame.node sid Geometry.vertical pos size cs) sa =
            (Frame.node sid Geometry.vertical pos size
              (homogenize_children cs (⟨size.width, size.height / cs.length⟩ : Size) pos (⟨0, ((size.height / cs.length : Nat) : Int)⟩ : Vector) sa).1,
             (homogenize_children cs (⟨size.width, size.height / cs.length⟩ : Size) pos (⟨0, ((size.height / cs.length : Nat) : Int)⟩ : Vector) sa).2) := by
          simp [homogenize, hlen]
        obtain ⟨e1, e2, e3, e4, e5⟩ := ihm.2.2.2.2.2 cs (⟨size.width, size.height / cs.length⟩ : Size) pos (⟨0, ((size.height / cs.length : Nat) : Int)⟩ : Vector) sa (by omega)
        unfold establishes_homogenize
        rw [hstep]
        refine ⟨?_, ?_, ?_, ?_, ?_⟩
        · rw [collectSids_node, collectSids_node, e1]
        · intro t ht
          simp only [Frame.children] at ht
          exact e2 t ht
        · exact e3
        · intro _
          rw [shaped_node]
          refine ⟨?_, fun c' hc' => (e4 c' hc').2⟩
          intro c' hc'
          have h4 := (e4 c' hc').1
          simp [fits, h4]
        · intro _ hnodl hz c' hc'
          simp only [Frame.children] at hnodl hc' ⊢
          exact e5 hnodl hz c' hc'
      | horizontal =>
        have hstep : homogenize (Frame.node sid Geometry.horizontal pos size cs) sa =
            (Frame.node sid Geometry.horizontal pos size
              (homogenize_children cs (⟨size.width / cs.length, size.height⟩ : Size) pos (⟨((size.width / cs.length : Nat) : Int), 0⟩ : Vector) sa).1,
             (homogenize_children cs (⟨size.width / cs.length, size.height⟩ : Size) pos (⟨((size.width / cs.length : Nat) : Int), 0⟩ : Vector) sa).2) := by
          simp [homogenize, hlen]
        obtain ⟨e1, e2, e3, e4, e5⟩ := ihm.2.2.2.2.2 cs (⟨size.width / cs.length, size.height⟩ : Size) pos (⟨((size.width / cs.length : Nat) : Int), 0⟩ : Vector) sa (by omega)
        unfold establishes_homogenize
        rw [hstep]
        refine ⟨?_, ?_, ?_, ?_, ?_⟩
        · rw [collectSids_node, collectSids_node, e1]
        · intro t ht
          simp only [Frame.children] at ht
          exact e2 t ht
        · exact e3
        · intro _
          rw [shaped_node]
          refine ⟨?_, fun c' hc' => (e4 c' hc').2⟩
          intro c' hc'
          have h4 := (e4 c' hc').1
          simp [fits, h4]
        · intro _ hnodl hz c' hc'
          simp only [Frame.children] at hnodl hc' ⊢
          exact e5 hnodl hz c' hc'

theorem estHC_step (N : Nat) (ih : ∀ M, M < N → establishes_below M) :
    ∀ (cs : List Frame) (csize : Size) (pos inc : Vector) (sa : InnerCoordinator),
      3 * measureList cs + 3 ≤ N → establishes_hchildren cs csize pos inc sa := by
  intro cs csize pos inc sa hg
  cases cs with
  | nil =>
    unfold establishes_hchildren
    simp [homogenize_children, collectSidsList_nil]
  | cons c rest =>
    have hmc := Frame.measure_pos c
    have hml : measureList (c :: rest) = c.measure + measureList rest := by
      simp [measureList]
    rw [hml] at hg
    have ihm := ih (N - 1) (by omega)
    have hstep : homogenize_children (c :: rest) csize pos inc sa =
        (set_position (set_size c csize sa).1 pos ::
          (homogenize_children rest csize (pos + inc) inc (set_size c csize sa).2).1,
         (homogenize_children rest csize (pos + inc) inc (set_size c csize sa).2).2) := by
      simp [homogenize_children]
    obtain ⟨f1, f2, f3, f4, f5⟩ := ihm.1 c csize sa (by omega)
    obtain ⟨g1, g2, g3, g4, g5⟩ := ihm.2.2.2.2.2 rest csize (pos + inc) inc
      (set_size c csize sa).2 (by omega)
    have hpos := set_position_preserves (set_size c csize sa).1 pos
    unfold establishes_hchildren
    rw [hstep]
    refine ⟨?_, ?_, ?_, ?_, ?_⟩
    · rw [collectSidsList_cons, collectSidsList_cons, hpos.1, f1, g1]
    · intro t ht
      rw [collectSidsList_cons] at ht
      simp only [List.mem_append, not_or] at ht
      rw [g2 t ht.2, f2 t ht.1]
    · intro t ht
      exact g3 t (f3 t ht)
    · intro c' hc'
      rcases List.mem_cons.mp hc' with hc' | hc'
      · subst hc'
        refine ⟨?_, (hpos.2.1).mpr f4⟩
        rw [(set_position_root (set_size c csize sa).1 pos).2.2.2,
          (set_size_root c csize sa).2.2.2]
      · exact g4 c' hc'
    · intro hnod hz c' hc'
      obtain ⟨hnc, hnrest, hdisj⟩ := validNodupList_cons_elim hnod
      have hz1 : mapLookup (set_size c csize sa).2.surfaces 0 = none := f3 0 hz
      rcases List.mem_cons.mp hc' with hc' | hc'
      · subst hc'
        refine (hpos.2.2 _).mpr ?_
        refine good_congr (g3 0 hz1) ?_ (f5 hnc hz)
        intro t htc ht0
        rw [f1] at htc
        exact g2 t (fun hmem => hdisj t htc ht0 hmem)
      · exact g5 hnrest hz1 c' hc'

theorem establishes_all_levels : ∀ N, establishes_below N := by
  intro N
  induction N using Nat.strong_induction_on with
  | _ N ih =>
    exact ⟨estSS_step N ih, estSH_step N ih, estSW_step N ih, estSA_step N ih,
      estHom_step N ih, estHC_step N ih⟩

theorem set_size_establishes (f : Frame) (size : Size) (sa : InnerCoordinator) :
    establishes_set_size f size sa :=
  (establishes_all_levels (3 * f.measure + 2)).1 f size sa le_rfl

theorem set_size_fixed_aux : ∀ (N : Nat),
    (∀ (f : Frame) (size : Size) (sa : InnerCoordinator), 3 * f.measure + 2 ≤ N →
      f.get_size = size → shaped f → good sa f → set_size f size sa = (f, sa)) ∧
    (∀ (cs : List Frame) (h : Nat) (sa : InnerCoordinator), 3 * measureList cs + 3 ≤ N →
      (∀ c ∈ cs, c.get_size.height = h ∧ shaped c ∧ good sa c) →
      set_size_heights cs h sa = (cs, sa)) ∧
    (∀ (cs : List Frame) (w : Nat) (sa : InnerCoordinator), 3 * measureList cs + 3 ≤ N →
      (∀ c ∈ cs, c.get_size.width = w ∧ shaped c ∧ good sa c) →
      set_size_widths cs w sa = (cs, sa)) ∧
    (∀ (cs : List Frame) (size : Size) (sa : InnerCoordinator),
      3 * measureList cs + 3 ≤ N →
      (∀ c ∈ cs, c.get_size = size ∧ shaped c ∧ good sa c) →
      set_size_all cs size sa = (cs, sa)) := by
  intro N
  induction N using Nat.strong_induction_on with
  | _ N ih =>
    refine ⟨?_, ?_, ?_, ?_⟩
    · intro f size sa hg hsize hsh hgood
      cases f with
      | node sid g pos old cs =>
        have hm : (Frame.node sid g pos old cs).measure = 1 + measureList cs := by
          simp [Frame.measure]
        rw [hm] at hg
        have hold : old = size := by simpa [Frame.get_size] using hsize
        subst hold
        have hhf : headFits sa (Frame.node sid g pos old cs) :=
          hgood _ (by simp [nodesOf])
        have hrec : sa.reconfigure sid old surface_state.MAXIMIZED = sa := by
          unfold headFits at hhf
          rcases hl : mapLookup sa.surfaces sid with _ | srec
          · exact reconfigure_none _ _ _ _ hl
          · rw [show (Frame.node sid g pos old cs).get_sid = sid from rfl, hl] at hhf
            exact reconfigure_noop _ _ _ _ srec hl hhf.1 hhf.2
        obtain ⟨hfits, hshc⟩ := shaped_node.mp hsh
        obtain ⟨_, hgc⟩ := good_node.mp hgood
        have ihm := ih (N - 1) (by omega)
        cases g with
        | horizontal =>
          have hloop := ihm.2.1 cs old.height sa (by omega)
            (fun c hc => ⟨by simpa [fits] using hfits c hc, hshc c hc, hgc c hc⟩)
          simp [set_size, hrec, hloop]
        | vertical =>
          have hloop := ihm.2.2.1 cs old.width sa (by omega)
            (fun c hc => ⟨by simpa [fits] using hfits c hc, hshc c hc, hgc c hc⟩)
          simp [set_size, hrec, hloop]
        | stacked =>
          have hloop := ihm.2.2.2 cs old sa (by omega)
            (fun c hc => ⟨by simpa [fits] using hfits c hc, hshc c hc, hgc c hc⟩)
          simp [set_size, hrec, hloop]
        | floating =>
          have hloop := ihm.2.2.2 cs old sa (by omega)
            (fun c hc => ⟨by simpa [fits] using hfits c hc, hshc c hc, hgc c hc⟩)
          simp [set_size, hrec, hloop]
    · intro cs h sa hg hyp
      cases cs with
      | nil => simp [set_size_heights]
      | cons c rest =>
        have hmc := Frame.measure_pos c
        have hml : measureList (c :: rest) = c.measure + measureList rest := by
          simp [measureList]
        rw [hml] at hg
        have ihm := ih (N - 1) (by omega)
        obtain ⟨hh, hsh, hgd⟩ := hyp c (by simp)
        have hsz : (⟨c.get_size.width, h⟩ : Size) = c.get_size := by
          rw [← hh]
        have hfix : set_size c ⟨c.get_size.width, h⟩ sa = (c, sa) := by
          rw [hsz]
          exact ihm.1 c c.get_size sa (by omega) rfl hsh hgd
        have hrest : set_size_heights rest h sa = (rest, sa) :=
          ihm.2.1 rest h sa (by omega) (fun x hx => hyp x (by simp [hx]))
        simp [set_size_heights, hfix, hrest]
    · intro cs w sa hg hyp
      cases cs with
      | nil => simp [set_size_widths]
      | cons c rest =>
        have hmc := Frame.measure_pos c
        have hml : measureList (c :: rest) = c.measure + measureList rest := by
          simp [measureList]
        rw [hml] at hg
        have ihm := ih (N - 1) (by omega)
        obtain ⟨hh, hsh, hgd⟩ := hyp c (by simp)
        have hsz : (⟨w, c.get_size.height⟩ : Size) = c.get_size := by
          rw [← hh]
        have hfix : set_size c ⟨w, c.get_size.height⟩ sa = (c, sa) := by
          rw [hsz]
          exact ihm.1 c c.get_size sa (by omega) rfl hsh hgd
        have hrest : set_size_widths rest w sa = (rest, sa) :=
          ihm.2.2.1 rest w sa (by omega) (fun x hx => hyp x (by simp [hx]))
        simp [set_size_widths, hfix, hrest]
    · intro cs size sa hg hyp
      cases cs with
      | nil => simp [set_size_all]
      | cons c rest =>
        have hmc := Frame.measure_pos c
        have hml : measureList (c :: rest) = c.measure + measureList rest := by
          simp [measureList]
        rw [hml] at hg
        have ihm := ih (N - 1) (by omega)
        obtain ⟨hh, hsh, hgd⟩ := hyp c (by simp)
        have hfix : set_size c size sa = (c, sa) := by
          rw [← hh]
          exact ihm.1 c c.get_size sa (by omega) rfl hsh hgd
        have hrest : set_size_all rest size sa = (rest, sa) :=
          ihm.2.2.2 rest size sa (by omega) (fun x hx => hyp x (by simp [hx]))
        simp [set_size_all, hfix, hrest]

/-- C5: after `set_size(s)` the size of the frame equals `s`, and repeating `set_size`
with the same value is idempotent: the second call leaves the whole tree and the
coordinator state unchanged — in particular it emits no additional
`SurfaceReconfigured` — because `reconfigure` emits only when the desired size or the
state flags actually change.  The hypotheses are the frame-tree invariants of the
spec: valid bound sids occur at most once, and the invalid sid zero is not a
registered surface. -/
theorem set_size_idempotent_spec (f : Frame) (size : Size) (sa : InnerCoordinator)
    (h1 : validNodup f) (h2 : mapLookup sa.surfaces 0 = none) :
    (set_size f size sa).1.get_size = size ∧
    set_size (set_size f size sa).1 size (set_size f size sa).2 = set_size f size sa ∧
    (set_size (set_size f size sa).1 size (set_size f size sa).2).2.events =
      (set_size f size sa).2.events := by
  obtain ⟨e1, e2, e3, e4, e5⟩ := set_size_establishes f size sa
  have hsz := (set_size_root f size sa).2.2.2
  have hfix := (set_size_fixed_aux (3 * (set_size f size sa).1.measure + 2)).1
    (set_size f size sa).1 size (set_size f size sa).2 le_rfl hsz e4 (e5 h1 h2)
  exact ⟨hsz, by rw [hfix], by rw [hfix]⟩

/-- Witness for C5: a horizontal parent with two bound leaves, surfaces 1 and 2
registered; resizing to (8, 6) yields size (8, 6) and a second identical call changes
nothing. -/
theorem set_size_idempotent_witness :
    (set_size (Frame.node 0 Geometry.horizontal ⟨0, 0⟩ ⟨4, 4⟩
        [Frame.node 1 Geometry.stacked ⟨0, 0⟩ ⟨2, 4⟩ [],
         Frame.node 2 Geometry.stacked ⟨2, 0⟩ ⟨2, 4⟩ []]) ⟨8, 6⟩
      ((InnerCoordinator.new.create_surface).1.create_surface).1).1.get_size = ⟨8, 6⟩ ∧
    set_size
      (set_size (Frame.node 0 Geometry.horizontal ⟨0, 0⟩ ⟨4, 4⟩
        [Frame.node 1 Geometry.stacked ⟨0, 0⟩ ⟨2, 4⟩ [],
         Frame.node 2 Geometry.stacked ⟨2, 0⟩ ⟨2, 4⟩ []]) ⟨8, 6⟩
        ((InnerCoordinator.new.create_surface).1.create_surface).1).1 ⟨8, 6⟩
      (set_size (Frame.node 0 Geometry.horizontal ⟨0, 0⟩ ⟨4, 4⟩
        [Frame.node 1 Geometry.stacked ⟨0, 0⟩ ⟨2, 4⟩ [],
         Frame.node 2 Geometry.stacked ⟨2, 0⟩ ⟨2, 4⟩ []]) ⟨8, 6⟩
        ((InnerCoordinator.new.create_surface).1.create_surface).1).2 =
    set_size (Frame.node 0 Geometry.horizontal ⟨0, 0⟩ ⟨4, 4⟩
        [Frame.node 1 Geometry.stacked ⟨0, 0⟩ ⟨2, 4⟩ [],
         Frame.node 2 Geometry.stacked ⟨2, 0⟩ ⟨2, 4⟩ []]) ⟨8, 6⟩
      ((InnerCoordinator.new.create_surface).1.create_surface).1 := by
  have h := set_size_idempotent_spec
    (Frame.node 0 Geometry.horizontal ⟨0, 0⟩ ⟨4, 4⟩
      [Frame.node 1 Geometry.stacked ⟨0, 0⟩ ⟨2, 4⟩ [],
       Frame.node 2 Geometry.stacked ⟨2, 0⟩ ⟨2, 4⟩ []]) ⟨8, 6⟩
    ((InnerCoordinator.new.create_surface).1.create_surface).1
    (by
      unfold validNodup
      rw [show collectSids (Frame.node 0 Geometry.horizontal ⟨0, 0⟩ ⟨4, 4⟩
          [Frame.node 1 Geometry.stacked ⟨0, 0⟩ ⟨2, 4⟩ [],
           Frame.node 2 Geometry.stacked ⟨2, 0⟩ ⟨2, 4⟩ []]) = [0, 1, 2] from by
        simp [collectSids, nodesOf, nodesOfList, Frame.get_sid]]
      decide)
    (by decide)
  exact ⟨h.1, h.2.1⟩

end Perceptia
